import Mathlib

/-!
Shallow embedding of the density-anchor trading subsystem of the
hyper_screener repository, together with proofs checking the claims of its
natural-language specification.

Numbers: the TypeScript source computes with IEEE doubles.  The embedding
uses exact rationals (`ℚ`); every rational is finite, so the source's
`isFinite` guards are trivially true here and the remaining content of those
guards (sign conditions, null-suppression) is modelled exactly.  Timestamps
(`Date.now()`) are modelled as integer parameters.

Source files embedded (paths relative to the repository root):
- `src/trading/policyRules.ts`, `src/trading/positionPolicy.ts` (policy engine)
- `src/utils/fileLogger.ts` (second document: `NatrCalculator`, `NatrService`)
- the unnamed `OrderBookMonitor` file (`processOrderBook`, `extractPriceSize`,
  `checkOrder`)
- `src/trading/bounceTradingModule.ts` (`onLargeOrder`, `onOrderBookSnapshot`)
- `src/trading/interfaces.ts` (state records)
- the unnamed `PaperExecutionEngine` / `BinanceExecutionEngine` files
  (`cancelLimitOrder`)
-/

namespace HS

/-! ## Policy engine (`positionPolicy.ts`, `policyRules.ts`) -/

/-- `ContextFeatures` from `contextFeatures.ts`: the feature vector the policy
engine evaluates rules against. -/
structure ContextFeatures where
  shock30mNatr : ℚ
  shock60mNatr : ℚ
  timeInAnchorZoneMin : ℚ
  timeSinceEntryMin : ℚ
  anchorTradeCount : ℚ
  anchorWinCount : ℚ
  anchorLastTradeAgoMin : ℚ
  tpHitsCount : ℚ
  deriving Repr, DecidableEq

/-- `RuleScope` from `policyRules.ts`. -/
inductive RuleScope
  | new_entry
  | open_position
  | new_entry_breakdown
  deriving Repr, DecidableEq

/-- `RuleConditions` from `policyRules.ts`: each bound is optional
(`undefined` = absent = `none`). -/
structure RuleConditions where
  shock30mNatrGte : Option ℚ := none
  shock30mNatrLte : Option ℚ := none
  shock60mNatrGte : Option ℚ := none
  shock60mNatrLte : Option ℚ := none
  anchorTradeCountGte : Option ℚ := none
  anchorTradeCountLte : Option ℚ := none
  anchorWinCountGte : Option ℚ := none
  anchorWinCountLte : Option ℚ := none
  anchorLastTradeAgoMinGte : Option ℚ := none
  anchorLastTradeAgoMinLte : Option ℚ := none
  timeInAnchorZoneMinGte : Option ℚ := none
  timeInAnchorZoneMinLte : Option ℚ := none
  tpHitsCountEq : Option ℚ := none
  deriving Repr, DecidableEq

/-- `RuleActions` from `policyRules.ts` (the `then` block of a rule; `then`
is a Lean keyword, so the field is called `thenAct` where it appears below). -/
structure RuleActions where
  allowTrade : Option Bool := none
  sizeMultiplier : Option ℚ := none
  tpNatrMultiplier : Option ℚ := none
  slNatrMultiplier : Option ℚ := none
  deriving Repr, DecidableEq

/-- `PolicyRule` from `policyRules.ts`.  `whenCond` embeds the `when` field
and `thenAct` the `then` field. -/
structure PolicyRule where
  name : String
  priority : ℚ
  scope : RuleScope
  whenCond : RuleConditions
  thenAct : RuleActions
  deriving Repr, DecidableEq

/-- `PolicyDecision` from `positionPolicy.ts`. -/
structure PolicyDecision where
  allowTrade : Bool
  sizeMultiplier : ℚ
  tpNatrMultiplier : ℚ
  slNatrMultiplier : ℚ
  reason : String
  deriving Repr, DecidableEq

/-- One `xGte` check of `PositionPolicy.checkConditions`: the rule fails when
the bound is present and the feature is strictly below it. -/
def gteOk (bound : Option ℚ) (x : ℚ) : Bool :=
  match bound with
  | none => true
  | some b => decide (b ≤ x)

/-- One `xLte` check of `PositionPolicy.checkConditions`. -/
def lteOk (bound : Option ℚ) (x : ℚ) : Bool :=
  match bound with
  | none => true
  | some b => decide (x ≤ b)

/-- The `tpHitsCountEq` check of `PositionPolicy.checkConditions`. -/
def eqOk (bound : Option ℚ) (x : ℚ) : Bool :=
  match bound with
  | none => true
  | some b => decide (x = b)

/-- `PositionPolicy.checkConditions`: all present bounds must hold
(logical AND over the thirteen recognised conditions). -/
def checkConditions (rule : PolicyRule) (f : ContextFeatures) : Bool :=
  gteOk rule.whenCond.shock30mNatrGte f.shock30mNatr &&
  lteOk rule.whenCond.shock30mNatrLte f.shock30mNatr &&
  gteOk rule.whenCond.shock60mNatrGte f.shock60mNatr &&
  lteOk rule.whenCond.shock60mNatrLte f.shock60mNatr &&
  gteOk rule.whenCond.anchorTradeCountGte f.anchorTradeCount &&
  lteOk rule.whenCond.anchorTradeCountLte f.anchorTradeCount &&
  gteOk rule.whenCond.anchorWinCountGte f.anchorWinCount &&
  lteOk rule.whenCond.anchorWinCountLte f.anchorWinCount &&
  gteOk rule.whenCond.anchorLastTradeAgoMinGte f.anchorLastTradeAgoMin &&
  lteOk rule.whenCond.anchorLastTradeAgoMinLte f.anchorLastTradeAgoMin &&
  gteOk rule.whenCond.timeInAnchorZoneMinGte f.timeInAnchorZoneMin &&
  lteOk rule.whenCond.timeInAnchorZoneMinLte f.timeInAnchorZoneMin &&
  eqOk rule.whenCond.tpHitsCountEq f.tpHitsCount

/-- The action-application block of `PositionPolicy.evaluatePolicy`:
`allowTrade` is overwritten when present, the three multipliers multiply
cumulatively when present. -/
def applyActions (d : PolicyDecision) (r : PolicyRule) : PolicyDecision :=
  let d := match r.thenAct.allowTrade with
    | none => d
    | some b => { d with allowTrade := b }
  let d := match r.thenAct.sizeMultiplier with
    | none => d
    | some m => { d with sizeMultiplier := d.sizeMultiplier * m }
  let d := match r.thenAct.tpNatrMultiplier with
    | none => d
    | some m => { d with tpNatrMultiplier := d.tpNatrMultiplier * m }
  let d := match r.thenAct.slNatrMultiplier with
    | none => d
    | some m => { d with slNatrMultiplier := d.slNatrMultiplier * m }
  d

/-- The `for` loop of `PositionPolicy.evaluatePolicy`: walks the rule list in
order, applies each matching rule, records its name in `appliedRules`, and
stops (setting `reason` to the rule name, as the loop body does before
`break`) as soon as the decision's `allowTrade` became `false`. -/
def evalLoop (f : ContextFeatures) :
    List PolicyRule → PolicyDecision → List String → PolicyDecision × List String
  | [], d, applied => (d, applied)
  | r :: rest, d, applied =>
    if checkConditions r f then
      let applied' := applied ++ [r.name]
      let d' := applyActions d r
      if d'.allowTrade = false then ({ d' with reason := r.name }, applied')
      else evalLoop f rest d' applied'
    else evalLoop f rest d applied

/-- `PositionPolicy.evaluatePolicy`: starts from the default decision, runs
the rule loop, and afterwards — whether or not the loop stopped on a veto —
overwrites `reason` with the comma-joined applied-rule names whenever at
least one rule was applied. -/
def evaluatePolicy (rules : List PolicyRule) (f : ContextFeatures) : PolicyDecision :=
  let init : PolicyDecision :=
    { allowTrade := true, sizeMultiplier := 1, tpNatrMultiplier := 1,
      slNatrMultiplier := 1, reason := "default" }
  let res := evalLoop f rules init []
  if res.2.length > 0 then { res.1 with reason := String.intercalate ", " res.2 }
  else res.1

/-- Specification-side companion of the evaluation loop: the list of rules
that match, in evaluation order, cut off just after the first matching rule
whose `then` block sets `allowTrade: false` (evaluation stops there). -/
def matchedRules (f : ContextFeatures) : List PolicyRule → List PolicyRule
  | [] => []
  | r :: rest =>
    if checkConditions r f then
      if r.thenAct.allowTrade = some false then [r]
      else r :: matchedRules f rest
    else matchedRules f rest

/-! ## NATR calculator (`fileLogger.ts`, second document: `NatrCalculator`) -/

/-- `Candle` from the NATR module (`timestamp`, `open`, `high`, `low`,
`close`; `open` is a Lean keyword, hence `openP`). -/
structure Candle where
  timestamp : ℤ
  openP : ℚ
  high : ℚ
  low : ℚ
  close : ℚ
  deriving Repr, DecidableEq

/-- Internal state of `NatrCalculator`. -/
structure NatrState where
  period : ℕ
  trHistory : List ℚ
  lastClose : Option ℚ
  atr : Option ℚ
  deriving Repr, DecidableEq

/-- A freshly constructed `NatrCalculator(period)`. -/
def initNatr (period : ℕ) : NatrState :=
  { period := period, trHistory := [], lastClose := none, atr := none }

/-- The true-range computation of `NatrCalculator.update`: `high - low` while
no previous close is known, otherwise
`max(high - low, |high - prevClose|, |low - prevClose|)`. -/
def trueRangeOf (lastClose : Option ℚ) (c : Candle) : ℚ :=
  match lastClose with
  | none => c.high - c.low
  | some pc => max (c.high - c.low) (max |c.high - pc| |c.low - pc|)

/-- The output guard at the end of `NatrCalculator.update`: suppress the
value when `atr ≤ 0` or `close ≤ 0` (the source also checks `isFinite`,
which is trivially true over `ℚ`), else publish `atr / close * 100` when it
is strictly positive. -/
def natrOutput (atr close : ℚ) : Option ℚ :=
  if atr ≤ 0 ∨ close ≤ 0 then none
  else
    let natr := atr / close * 100
    if 0 < natr then some natr else none

/-- `NatrCalculator.update`: computes the candle's TR, records `lastClose`,
collects the first `period` TRs and seeds `ATR` with their arithmetic mean,
thereafter applies Wilder smoothing
`ATR_t = (ATR_{t-1} * (period - 1) + TR_t) / period`, and finally runs the
output guard. -/
def natrUpdate (s : NatrState) (c : Candle) : NatrState × Option ℚ :=
  let tr := trueRangeOf s.lastClose c
  let s1 := { s with lastClose := some c.close }
  match s1.atr with
  | none =>
    let hist := s1.trHistory ++ [tr]
    let s2 := { s1 with trHistory := hist }
    if hist.length < s2.period then (s2, none)
    else
      let atr := hist.sum / (s2.period : ℚ)
      ({ s2 with atr := some atr }, natrOutput atr c.close)
  | some prev =>
    let atr := (prev * ((s1.period : ℚ) - 1) + tr) / (s1.period : ℚ)
    ({ s1 with atr := some atr }, natrOutput atr c.close)

/-- Feeding a list of candles through `NatrCalculator.update`, collecting the
returned values. -/
def natrRun (s : NatrState) : List Candle → NatrState × List (Option ℚ)
  | [] => (s, [])
  | c :: cs =>
    let r := natrUpdate s c
    let rest := natrRun r.1 cs
    (rest.1, r.2 :: rest.2)

/-- Specification-side companion: the sequence of true ranges of a candle
list, threading the previous close exactly as the calculator does. -/
def trList (lastClose : Option ℚ) : List Candle → List ℚ
  | [] => []
  | c :: cs => trueRangeOf lastClose c :: trList (some c.close) cs

/-- Specification-side companion: the `lastClose` the calculator holds after
consuming a candle list. -/
def lastCloseAfter (lastClose : Option ℚ) : List Candle → Option ℚ
  | [] => lastClose
  | c :: cs => lastCloseAfter (some c.close) cs

/-! ## Order-book levels and the large-order detector (`OrderBookMonitor`) -/

/-- The outcome of `parseFloat(String(x))` on a raw order-book field: either
a finite number (modelled exactly as a rational) or a non-finite result
(`NaN` / `±Infinity`). -/
inductive JsNum
  | fin (q : ℚ)
  | nonfinite
  deriving Repr, DecidableEq

/-- A raw order-book level as delivered on the wire: a pair array
`[price, size, ...]`, an object with optional `price`/`px` and `size`/`sz`
keys (`none` = key absent or null, triggering the `??` fallback), or any
other value (null, undefined or a primitive — both the `!level` guard and
the final `else` of `extractPriceSize` reject it). -/
inductive RawLevel
  | arr (price size : JsNum)
  | obj (price px size sz : Option JsNum)
  | invalid
  deriving Repr, DecidableEq

/-- `parseFloat(String(raw))` on an object field after `??` coalescing: an
absent field yields `parseFloat("undefined") = NaN`. -/
def parseRaw : Option JsNum → JsNum
  | none => .nonfinite
  | some v => v

/-- The shared validation tail of `extractPriceSize`: reject non-finite,
non-positive prices or sizes. -/
def parsePair : JsNum → JsNum → Option (ℚ × ℚ)
  | .fin p, .fin s => if p ≤ 0 ∨ s ≤ 0 then none else some (p, s)
  | _, _ => none

/-- `extractPriceSize`, identical in `OrderBookMonitor` and in
`bounceTradingModule.ts`: accept array levels and object levels with
`price|px` / `size|sz` keys, require finite positive price and size. -/
def extractPriceSize : RawLevel → Option (ℚ × ℚ)
  | .arr p s => parsePair p s
  | .obj price px size sz => parsePair (parseRaw (price <|> px)) (parseRaw (size <|> sz))
  | .invalid => none

/-- Lifting of `extractPriceSize` through the `rawBids.length ? ... : null`
pattern used for best levels. -/
def extractOpt (lvl : Option RawLevel) : Option (ℚ × ℚ) :=
  lvl.bind extractPriceSize

/-- Order-book side of a level or anchor. -/
inductive BookSide
  | bid
  | ask
  deriving Repr, DecidableEq

/-- `OrderBookSnapshot` from `types.ts`: `levels: [bids, asks]` is split
into the two sides. -/
structure OrderBookSnapshot where
  coin : String
  time : ℤ
  bids : List RawLevel
  asks : List RawLevel
  deriving Repr, DecidableEq

/-- `LargeOrder` from `types.ts`. -/
structure LargeOrder where
  coin : String
  side : BookSide
  price : ℚ
  size : ℚ
  valueUsd : ℚ
  distancePercent : ℚ
  timestamp : ℤ
  deriving Repr, DecidableEq

/-- `TradeMode` from `types.ts`. -/
inductive TradeMode
  | SCREEN_ONLY
  | TRADE_PAPER
  | TRADE_LIVE
  deriving Repr, DecidableEq

/-- `TradeExecutionVenue` from `types.ts`. -/
inductive TradeExecutionVenue
  | PAPER
  | HYPERLIQUID
  | BINANCE
  deriving Repr, DecidableEq

/-- The slice of the `Config` record (from `types.ts` / `config.ts`) read by
the embedded functions.  `perCoinMinOrderSizeUsd` is the per-coin override
map (`none` = no entry for that coin). -/
structure Config where
  minOrderSizeUsd : ℚ
  maxDistancePercent : ℚ
  perCoinMinOrderSizeUsd : String → Option ℚ
  tradeEnabled : Bool
  tradeMode : TradeMode
  tradeExecutionVenue : TradeExecutionVenue
  tradePositionSizeUsd : ℚ
  tradeMaxOpenPositions : ℕ
  tradeAnchorMinValueFraction : ℚ
  tradeAnchorMinValueUsd : ℚ
  tradeTpNatrLevels : List ℚ
  tradeTpPercents : List ℚ

/-- The distance-from-mid formula of `OrderBookMonitor.checkOrder`:
`(mid - price) / mid * 100` for bids, `(price - mid) / mid * 100` for
asks. -/
def distOf (side : BookSide) (price markPrice : ℚ) : ℚ :=
  match side with
  | .bid => (markPrice - price) / markPrice * 100
  | .ask => (price - markPrice) / markPrice * 100

/-- `OrderBookMonitor.checkOrder`: emits a `LargeOrder` unless the level's
USD value is below the effective per-coin minimum or its distance from the
mark price (mid) is negative or above `maxDistancePercent`.  `now` stands
for `Date.now()`. -/
def checkOrder (cfg : Config) (now : ℤ) (coin : String) (side : BookSide)
    (price size markPrice : ℚ) : Option LargeOrder :=
  let valueUsd := price * size
  let effectiveMinOrderSizeUsd := (cfg.perCoinMinOrderSizeUsd coin.toUpper).getD cfg.minOrderSizeUsd
  if valueUsd < effectiveMinOrderSizeUsd then none
  else
    let distancePercent := distOf side price markPrice
    if distancePercent < 0 ∨ distancePercent > cfg.maxDistancePercent then none
    else some { coin := coin, side := side, price := price, size := size,
                valueUsd := valueUsd, distancePercent := distancePercent, timestamp := now }

/-- `OrderBookMonitor.processOrderBook`, restricted to its pure output: the
list of emitted `LargeOrder`s.  Requires non-empty sides and a parseable
best bid and best ask, computes the mid price, rejects a non-positive mid
(non-finiteness is impossible over `ℚ`), then runs `checkOrder` on every
parseable level of both sides. -/
def processOrderBook (cfg : Config) (now : ℤ) (snap : OrderBookSnapshot) : List LargeOrder :=
  match snap.bids, snap.asks with
  | b0 :: _, a0 :: _ =>
    match extractPriceSize b0, extractPriceSize a0 with
    | some bb, some aa =>
      let markPrice := (bb.1 + aa.1) / 2
      if markPrice ≤ 0 then []
      else
        snap.bids.filterMap
          (fun lvl => (extractPriceSize lvl).bind fun ps =>
            checkOrder cfg now snap.coin .bid ps.1 ps.2 markPrice) ++
        snap.asks.filterMap
          (fun lvl => (extractPriceSize lvl).bind fun ps =>
            checkOrder cfg now snap.coin .ask ps.1 ps.2 markPrice)
    | _, _ => []
  | _, _ => []

/-! ## Trading-state records (`interfaces.ts`) -/

/-- Position direction. -/
inductive Side
  | long
  | short
  deriving Repr, DecidableEq

/-- Limit-order direction. -/
inductive OrderSide
  | buy
  | sell
  deriving Repr, DecidableEq

/-- Limit-order purpose. -/
inductive OrderPurpose
  | entry
  | tp
  deriving Repr, DecidableEq

/-- `LimitOrderState` from `interfaces.ts`.  The optional booleans
`filled?` / `cancelled?` are modelled as `Bool` (absent = `false`, matching
their use in truthiness tests). -/
structure LimitOrderState where
  orderId : String
  coin : String
  price : ℚ
  sizeUsd : ℚ
  contracts : Option ℚ
  side : OrderSide
  purpose : OrderPurpose
  placedAt : ℤ
  filled : Bool
  filledAt : Option ℤ
  cancelled : Bool
  cancelledAt : Option ℤ
  deriving Repr, DecidableEq

/-- One take-profit target of `PositionState.tpTargets`. -/
structure TpTarget where
  price : ℚ
  sizeUsd : ℚ
  hit : Bool
  deriving Repr, DecidableEq

/-- `PositionState` from `interfaces.ts` (the raw-exchange-trade lists
`entryTrades` / `exitTrades` and the TP price cache, which no embedded
function reads, are omitted). -/
structure PositionState where
  id : String
  coin : String
  side : Side
  entryPrice : ℚ
  sizeUsd : ℚ
  sizeContracts : Option ℚ
  initialSizeUsd : Option ℚ
  openedAt : ℤ
  anchorSide : Option BookSide
  anchorPrice : Option ℚ
  anchorInitialValueUsd : Option ℚ
  anchorMinValueUsd : Option ℚ
  tpTargets : Option (List TpTarget)
  entryLimitOrders : Option (List LimitOrderState)
  tpLimitOrders : Option (List LimitOrderState)
  marketFilledSizeUsd : Option ℚ
  limitFilledSizeUsd : Option ℚ
  deriving Repr, DecidableEq

/-- `TradeSignal` from `interfaces.ts` (the fields the engines read). -/
structure TradeSignal where
  coin : String
  side : Side
  referencePrice : ℚ
  targetPositionSizeUsd : ℚ
  deriving Repr, DecidableEq

/-- A call the trading module issues against its `ExecutionEngine`:
`closePosition` (with the position's id, the `sizeUsd` passed, and the close
reason) or `cancelLimitOrder`. -/
inductive EngineCmd
  | close (positionId : String) (sizeUsd : ℚ) (reason : String)
  | cancel (orderId : String)
  deriving Repr, DecidableEq

/-! ## Execution engines (paper and Binance documents) -/

/-- `PaperExecutionEngine.openPosition`: refuses when
`tradePositionSizeUsd ≤ 0`, otherwise builds a fresh position from the
signal.  `now` stands for `Date.now()` and `idNum` for the `nextId`
counter used in the generated id. -/
def paperOpenPosition (cfg : Config) (now : ℤ) (idNum : ℕ) (signal : TradeSignal) :
    Option PositionState :=
  if cfg.tradePositionSizeUsd ≤ 0 then none
  else some
    { id := "paper-" ++ toString now ++ "-" ++ toString idNum
      coin := signal.coin
      side := signal.side
      entryPrice := signal.referencePrice
      sizeUsd := signal.targetPositionSizeUsd
      sizeContracts := none
      initialSizeUsd := none
      openedAt := now
      anchorSide := none
      anchorPrice := none
      anchorInitialValueUsd := none
      anchorMinValueUsd := none
      tpTargets := none
      entryLimitOrders := none
      tpLimitOrders := none
      marketFilledSizeUsd := none
      limitFilledSizeUsd := none }

/-- `PaperExecutionEngine.cancelLimitOrder`: skip orders already cancelled
or filled, otherwise mark cancelled and stamp `cancelledAt`. -/
def paperCancelLimitOrder (now : ℤ) (o : LimitOrderState) : LimitOrderState :=
  if o.cancelled ∨ o.filled then o
  else { o with cancelled := true, cancelledAt := some now }

/-- The digit run captured by the `/binance-(\d+)/` regex, as a number. -/
def digitsValue (cs : List Char) : ℕ :=
  cs.foldl (fun acc c => acc * 10 + (c.toNat - 48)) 0

/-- Scan for the first occurrence of `binance-` followed by at least one
digit, mirroring `orderId.match(/binance-(\d+)/)`. -/
def findBinanceId : List Char → Option ℕ
  | [] => none
  | c :: rest =>
    if "binance-".data.isPrefixOf (c :: rest) then
      let ds := ((c :: rest).drop 8).takeWhile Char.isDigit
      if ds.isEmpty then findBinanceId rest else some (digitsValue ds)
    else findBinanceId rest

/-- `orderId.match(/binance-(\d+)/)` of `BinanceExecutionEngine`. -/
def binanceOrderIdNum (s : String) : Option ℕ :=
  findBinanceId s.data

/-- Outcome of the `DELETE /fapi/v1/order` call issued by
`BinanceExecutionEngine.cancelLimitOrder`: success, an error whose message
carries code `-2011` or `-2013` (unknown order), or any other error. -/
inductive CancelApiResult
  | ok
  | errUnknownOrder
  | errOther
  deriving Repr, DecidableEq

/-- `BinanceExecutionEngine.cancelLimitOrder`: no-op unless live; skip
orders already cancelled or filled; skip malformed order ids; on success or
on an unknown-order error (`-2011`/`-2013`) mark the local order cancelled;
on any other error log and leave the order unchanged. -/
def binanceCancelLimitOrder (live : Bool) (apiResult : CancelApiResult) (now : ℤ)
    (o : LimitOrderState) : LimitOrderState :=
  if !live then o
  else if o.cancelled ∨ o.filled then o
  else
    match binanceOrderIdNum o.orderId with
    | none => o
    | some _ =>
      match apiResult with
      | .ok => { o with cancelled := true, cancelledAt := some now }
      | .errUnknownOrder => { o with cancelled := true, cancelledAt := some now }
      | .errOther => o

/-! ## Bounce trading module (`bounceTradingModule.ts`) -/

/-- `BasicRiskManager.canOpenPosition`: refuse when the open-position limit
is reached or a position for the signal's coin already exists. -/
def canOpenPosition (maxOpenPositions : ℕ) (signalCoin : String)
    (openPositions : List PositionState) : Bool :=
  if openPositions.length ≥ maxOpenPositions then false
  else if openPositions.any (fun p => p.coin = signalCoin) then false
  else true

/-- The module's in-memory trading state: the `openPositions` ledger and the
`pendingCoins` re-entry guard set. -/
structure ModuleState where
  openPositions : List PositionState
  pendingCoins : List String
  deriving Repr, DecidableEq

/-- The TP-target construction block of
`BounceTradingModule.onLargeOrder`: one NATR step is
`entryPrice * natr / 100`; target `i` sits `level_i` steps above (long)
or below (short) the entry and takes `percent_i` of the position size. -/
def mkTpTargets (cfg : Config) (natr : ℚ) (side : Side) (pos : PositionState) :
    List TpTarget :=
  let step := pos.entryPrice * (natr / 100)
  (cfg.tradeTpNatrLevels.zip cfg.tradeTpPercents).map fun lp =>
    let delta := step * lp.1
    let price :=
      match side with
      | .long => pos.entryPrice + delta
      | .short => pos.entryPrice - delta
    { price := price, sizeUsd := pos.sizeUsd * (lp.2 / 100), hit := false }

/-- `BounceTradingModule.onLargeOrder`.  External effects are parameters:
`natr` is what `natrService.getNatr` returns (`none` also covers a module
constructed without a NATR service) and `enginePos` the result of
`engine.openPosition` for the derived signal.  Mirrors the guard chain, the
anchor-field attachment (`anchorMinValueUsd = max(valueUsd * fraction,
minUsd)`), the TP-target construction, and the push into the ledger; the
`pendingCoins` add/delete pair of the `try`/`finally` cancels out in the
returned state. -/
def onLargeOrder (cfg : Config) (natr : Option ℚ) (enginePos : Option PositionState)
    (st : ModuleState) (order : LargeOrder) : ModuleState :=
  let side : Side := match order.side with | .bid => .long | .ask => .short
  let coinKey := order.coin.toUpper
  if ¬cfg.tradeEnabled ∨ cfg.tradeMode = .SCREEN_ONLY then st
  else if cfg.tradeMode = .TRADE_PAPER ∧ cfg.tradeExecutionVenue ≠ .PAPER then st
  else if st.pendingCoins.contains coinKey then st
  else if st.openPositions.any (fun p => p.coin.toUpper = coinKey) then st
  else if ¬canOpenPosition cfg.tradeMaxOpenPositions order.coin st.openPositions then st
  else
    match enginePos with
    | none => st
    | some pos0 =>
      let anchorInitialValueUsd := order.valueUsd
      let anchorMinValueUsd :=
        max (anchorInitialValueUsd * cfg.tradeAnchorMinValueFraction) cfg.tradeAnchorMinValueUsd
      let pos1 := { pos0 with
        anchorSide := some order.side
        anchorPrice := some order.price
        anchorInitialValueUsd := some anchorInitialValueUsd
        anchorMinValueUsd := some anchorMinValueUsd }
      let pos2 :=
        if cfg.tradeTpNatrLevels ≠ [] ∧
            cfg.tradeTpNatrLevels.length = cfg.tradeTpPercents.length then
          match natr with
          | some n =>
            if 0 < n then { pos1 with tpTargets := some (mkTpTargets cfg n side pos1) }
            else pos1
          | none => pos1
        else pos1
      { st with openPositions := st.openPositions ++ [pos2] }

/-- The summed USD value of the parseable levels sitting exactly at the
anchor price (`currentValueUsd` of the snapshot loop). -/
def anchorValue (book : List RawLevel) (anchorPrice : ℚ) : ℚ :=
  (book.map fun lvl =>
    match extractPriceSize lvl with
    | some ps => if ps.1 = anchorPrice then ps.1 * ps.2 else 0
    | none => 0).sum

/-- Whether some parseable level sits exactly at the anchor price (`inView`
of the snapshot loop). -/
def anchorInView (book : List RawLevel) (anchorPrice : ℚ) : Bool :=
  book.any fun lvl =>
    match extractPriceSize lvl with
    | some ps => ps.1 = anchorPrice
    | none => false

/-- The visible price window `[minVisible, maxVisible]` of a book side, from
its first and last parsed level: bids run best (max) to worst (min), asks
best (min) to worst (max). -/
def visibleWindow (side : BookSide) (first last : ℚ × ℚ) : ℚ × ℚ :=
  match side with
  | .bid => (last.1, first.1)
  | .ask => (first.1, last.1)

/-- Result of one iteration of the per-position snapshot loop: the
(possibly TP-mutated) position, the close reason pushed to
`positionsToClose` if any, and the partial-close engine calls issued
inline. -/
structure StepResult where
  position : PositionState
  closeReason : Option String
  cmds : List EngineCmd
  deriving Repr, DecidableEq

/-- The TP-target pass of the snapshot loop: walk the targets in order,
skip targets already hit or non-positive, and for each unhit target reached
by the mid price issue a partial close of `target.sizeUsd` (reason
`tp_hit`), mark it hit and subtract its size from the running position
size. -/
def processTpTargets (posId : String) (midPrice : ℚ) (posSide : Side) :
    List TpTarget → ℚ → List TpTarget × ℚ × List EngineCmd
  | [], sizeUsd => ([], sizeUsd, [])
  | t :: rest, sizeUsd =>
    if t.hit ∨ t.sizeUsd ≤ 0 then
      let r := processTpTargets posId midPrice posSide rest sizeUsd
      (t :: r.1, r.2.1, r.2.2)
    else
      let hit : Bool :=
        match posSide with
        | .long => decide (midPrice ≥ t.price)
        | .short => decide (midPrice ≤ t.price)
      if hit then
        let r := processTpTargets posId midPrice posSide rest (sizeUsd - t.sizeUsd)
        ({ t with hit := true } :: r.1, r.2.1,
          EngineCmd.close posId t.sizeUsd "tp_hit" :: r.2.2)
      else
        let r := processTpTargets posId midPrice posSide rest sizeUsd
        (t :: r.1, r.2.1, r.2.2)

/-- The anchor-side book selection `side === 'bid' ? rawBids : rawAsks` of
the snapshot loop. -/
def bookOf (side : BookSide) (rawBids rawAsks : List RawLevel) : List RawLevel :=
  match side with
  | .bid => rawBids
  | .ask => rawAsks

/-- The body of the per-position snapshot loop, after the relevance filter
has pinned `side = anchorSide` and `anchorPrice`: skip when the anchor-side
book is empty or its first/last level fails to parse; close
`anchor_lost_out_of_view_against` when the anchor left the visible window in
the adverse direction, hold when it left toward profit; close
`anchor_removed_from_book_in_view` when in range but absent; close
`anchor_value_below_threshold` when the remaining value is at most
`anchorMinValueUsd` (absent = 0); otherwise run the TP pass and close
`tp_all_hit` when the position size reaches zero.  `bookOf` is the
anchor-side book selection `side === 'bid' ? rawBids : rawAsks`; the body is
split into `tpPhase` (the TP block) and `coreWithWindow` (the decision tree
once the first and last level parsed). -/
def tpPhase (midPrice : Option ℚ) (p : PositionState) : StepResult :=
  match midPrice, p.tpTargets with
  | some mid, some ts =>
    if ts.isEmpty then { position := p, closeReason := none, cmds := [] }
    else
      let r := processTpTargets p.id mid p.side ts p.sizeUsd
      let p2 := { p with tpTargets := some r.1, sizeUsd := r.2.1 }
      if r.2.1 ≤ 0 then
        { position := p2, closeReason := some "tp_all_hit", cmds := r.2.2 }
      else
        { position := p2, closeReason := none, cmds := r.2.2 }
  | _, _ => { position := p, closeReason := none, cmds := [] }

/-- The decision tree of the snapshot loop once the anchor-side book's first
and last levels have parsed to `firstLevel` and `lastLevel`. -/
def coreWithWindow (book : List RawLevel) (midPrice : Option ℚ) (side : BookSide)
    (anchorPrice : ℚ) (p : PositionState) (firstLevel lastLevel : ℚ × ℚ) : StepResult :=
  let anchorMinValueUsd := p.anchorMinValueUsd.getD 0
  let w := visibleWindow side firstLevel lastLevel
  let minVisible := w.1
  let maxVisible := w.2
  let anchorInRange := minVisible ≤ anchorPrice ∧ anchorPrice ≤ maxVisible
  let inView := anchorInView book anchorPrice
  let currentValueUsd := anchorValue book anchorPrice
  if ¬anchorInRange then
    let movedAgainst :=
      (side = .bid ∧ anchorPrice > maxVisible) ∨ (side = .ask ∧ anchorPrice < minVisible)
    if movedAgainst then
      { position := p, closeReason := some "anchor_lost_out_of_view_against", cmds := [] }
    else
      { position := p, closeReason := none, cmds := [] }
  else if ¬inView then
    { position := p, closeReason := some "anchor_removed_from_book_in_view", cmds := [] }
  else if currentValueUsd ≤ anchorMinValueUsd then
    { position := p, closeReason := some "anchor_value_below_threshold", cmds := [] }
  else
    tpPhase midPrice p

/-- The per-position body: skip when the anchor-side book is empty or its
first or last level fails to parse, else run the decision tree. -/
def processPositionCore (rawBids rawAsks : List RawLevel) (midPrice : Option ℚ)
    (side : BookSide) (anchorPrice : ℚ) (p : PositionState) : StepResult :=
  let book := bookOf side rawBids rawAsks
  match extractOpt book.head?, extractOpt book.getLast? with
  | some firstLevel, some lastLevel =>
    coreWithWindow book midPrice side anchorPrice p firstLevel lastLevel
  | _, _ => { position := p, closeReason := none, cmds := [] }

/-- One iteration of the snapshot loop, dispatching on the anchor fields the
relevance filter requires. -/
def processPosition (rawBids rawAsks : List RawLevel) (midPrice : Option ℚ)
    (p : PositionState) : StepResult :=
  match p.anchorSide, p.anchorPrice with
  | some side, some anchorPrice => processPositionCore rawBids rawAsks midPrice side anchorPrice p
  | _, _ => { position := p, closeReason := none, cmds := [] }

/-- The relevance filter of `onOrderBookSnapshot`: same coin and both anchor
fields present. -/
def isRelevant (coin : String) (p : PositionState) : Bool :=
  p.coin = coin ∧ p.anchorPrice ≠ none ∧ p.anchorSide ≠ none

/-- The outcome of one `onOrderBookSnapshot` call: the new `openPositions`
ledger, the `positionsToClose` list (position, reason), and the engine calls
issued during the call (inline `tp_hit` partial closes first, then the
fire-and-forget closes of `positionsToClose`). -/
structure SnapshotOutcome where
  positions : List PositionState
  toClose : List (PositionState × String)
  cmds : List EngineCmd
  deriving Repr, DecidableEq

/-- The mid-price computation of `onOrderBookSnapshot`: defined only when
both best levels parse. -/
def midOf (snap : OrderBookSnapshot) : Option ℚ :=
  match extractOpt snap.bids.head?, extractOpt snap.asks.head? with
  | some bestBid, some bestAsk => some ((bestBid.1 + bestAsk.1) / 2)
  | _, _ => none

/-- One entry of the `relevantPositions` pass of `onOrderBookSnapshot`: a
relevant position goes through the loop body, any other position is left
untouched. -/
def snapshotStep (snap : OrderBookSnapshot) (p : PositionState) : StepResult :=
  if isRelevant snap.coin p then processPosition snap.bids snap.asks (midOf snap) p
  else { position := p, closeReason := none, cmds := [] }

/-- `BounceTradingModule.onOrderBookSnapshot`: skip when trading is disabled
or screen-only or no relevant position exists; compute the mid price when
both best levels parse; run the per-position loop (in-place mutations are
modelled by mapping each position to its step result); issue all decided
closes (their promise rejections are only logged, so the ledger update below
does not depend on them); and rebuild `openPositions` without the closed
ids via the final `splice`. -/
def onOrderBookSnapshot (cfg : Config) (positions : List PositionState)
    (snap : OrderBookSnapshot) : SnapshotOutcome :=
  if ¬cfg.tradeEnabled ∨ cfg.tradeMode = .SCREEN_ONLY then
    { positions := positions, toClose := [], cmds := [] }
  else if (positions.filter (isRelevant snap.coin)).isEmpty then
    { positions := positions, toClose := [], cmds := [] }
  else
    let results := positions.map (snapshotStep snap)
    let toClose := results.filterMap fun r => r.closeReason.map fun reason => (r.position, reason)
    let tpCmds := (results.map StepResult.cmds).flatten
    let closeCmds := toClose.map fun pr => EngineCmd.close pr.1.id pr.1.sizeUsd pr.2
    let idsToClose := toClose.map fun pr => pr.1.id
    { positions := (results.map StepResult.position).filter fun p => ¬idsToClose.contains p.id
      toClose := toClose
      cmds := tpCmds ++ closeCmds }

/-! ## Concrete sample data used by witnesses and counterexamples -/

/-- A feature vector with every feature zero. -/
def feats0 : ContextFeatures :=
  { shock30mNatr := 0, shock60mNatr := 0, timeInAnchorZoneMin := 0, timeSinceEntryMin := 0,
    anchorTradeCount := 0, anchorWinCount := 0, anchorLastTradeAgoMin := 0, tpHitsCount := 0 }

/-- A rule that always matches on `feats0` and doubles the position size. -/
def ruleBoost : PolicyRule :=
  { name := "boost", priority := 1, scope := .new_entry,
    whenCond := { shock30mNatrGte := some 0 }, thenAct := { sizeMultiplier := some 2 } }

/-- A rule that always matches on `feats0` and vetoes the trade. -/
def ruleVeto : PolicyRule :=
  { name := "veto", priority := 2, scope := .new_entry,
    whenCond := { shock30mNatrGte := some 0 }, thenAct := { allowTrade := some false } }

/-- A configuration with trading enabled in paper mode. -/
def cfgW : Config :=
  { minOrderSizeUsd := 1000000, maxDistancePercent := 1,
    perCoinMinOrderSizeUsd := fun _ => none,
    tradeEnabled := true, tradeMode := .TRADE_PAPER, tradeExecutionVenue := .PAPER,
    tradePositionSizeUsd := 1000, tradeMaxOpenPositions := 2,
    tradeAnchorMinValueFraction := 3 / 10, tradeAnchorMinValueUsd := 300000,
    tradeTpNatrLevels := [2, 3], tradeTpPercents := [50, 50] }

/-- A long position anchored to a bid at price 95. -/
def posW : PositionState :=
  { id := "paper-1", coin := "BTC", side := .long, entryPrice := 100, sizeUsd := 1000,
    sizeContracts := none, initialSizeUsd := none, openedAt := 0,
    anchorSide := some .bid, anchorPrice := some 95,
    anchorInitialValueUsd := some 3000000, anchorMinValueUsd := some 900000,
    tpTargets := none, entryLimitOrders := none, tpLimitOrders := none,
    marketFilledSizeUsd := none, limitFilledSizeUsd := none }

/-- First sample candle: true range `high - low = 2`. -/
def candleA : Candle := { timestamp := 0, openP := 9, high := 10, low := 8, close := 9 }

/-- Second sample candle: true range `max(4, 3, 1) = 4`. -/
def candleB : Candle := { timestamp := 1, openP := 9, high := 12, low := 8, close := 10 }

/-- Third sample candle: true range `max(6, 3, 3) = 6`. -/
def candleC : Candle := { timestamp := 2, openP := 10, high := 13, low := 7, close := 10 }

/-- An uncancelled, unfilled limit order with a Binance-style id. -/
def orderW : LimitOrderState :=
  { orderId := "binance-123", coin := "BTC", price := 100, sizeUsd := 1000,
    contracts := none, side := .buy, purpose := .entry, placedAt := 0,
    filled := false, filledAt := none, cancelled := false, cancelledAt := none }

/-- A snapshot where the bid side covers `[90, 100]` but has no level at the
anchor price 95. -/
def snapRemoved : OrderBookSnapshot :=
  { coin := "BTC", time := 1,
    bids := [.arr (.fin 100) (.fin 1), .arr (.fin 90) (.fin 1)],
    asks := [.arr (.fin 101) (.fin 1)] }

/-- A snapshot whose best bid is a 3,000,000 USD level at the mid price. -/
def snapDetect : OrderBookSnapshot :=
  { coin := "BTC", time := 0,
    bids := [.arr (.fin 100) (.fin 30000)],
    asks := [.arr (.fin 100) (.fin 1)] }

/-- A snapshot whose visible bid window `[85, 90]` is entirely below the
anchor price 95: price moved against a long. -/
def snapAgainst : OrderBookSnapshot :=
  { coin := "BTC", time := 2,
    bids := [.arr (.fin 90) (.fin 1), .arr (.fin 85) (.fin 1)],
    asks := [.arr (.fin 91) (.fin 1)] }

/-- A snapshot with a 190 USD remnant sitting at the anchor price 95. -/
def snapBelow : OrderBookSnapshot :=
  { coin := "BTC", time := 3,
    bids := [.arr (.fin 100) (.fin 1), .arr (.fin 95) (.fin 2), .arr (.fin 90) (.fin 1)],
    asks := [.arr (.fin 101) (.fin 1)] }

/-- `posW` with a low anchor threshold, a two-target TP ladder and a
recorded initial size. -/
def posTp : PositionState :=
  { posW with
    anchorMinValueUsd := some 100
    initialSizeUsd := some 1000
    tpTargets := some [⟨102, 500, false⟩, ⟨103, 500, false⟩] }

/-- A snapshot whose mid price 104 reaches both TP targets of `posTp` while
the anchor at 95 keeps a 190 USD remnant. -/
def snapTp : OrderBookSnapshot :=
  { coin := "BTC", time := 4,
    bids := [.arr (.fin 104) (.fin 1), .arr (.fin 95) (.fin 2), .arr (.fin 90) (.fin 1)],
    asks := [.arr (.fin 104) (.fin 1)] }

/-! ## C8 : cancelLimitOrder idempotence -/

lemma paperCancel_skip (t : ℤ) (o : LimitOrderState)
    (h : o.cancelled = true ∨ o.filled = true) : paperCancelLimitOrder t o = o := by
  rcases h with h | h <;> simp [paperCancelLimitOrder, h]

lemma paperCancel_active (t : ℤ) (o : LimitOrderState)
    (h1 : o.cancelled = false) (h2 : o.filled = false) :
    paperCancelLimitOrder t o = { o with cancelled := true, cancelledAt := some t } := by
  simp [paperCancelLimitOrder, h1, h2]

lemma binanceCancel_cancelled_noop (live : Bool) (r : CancelApiResult) (t : ℤ)
    (o : LimitOrderState) (h : o.cancelled = true) :
    binanceCancelLimitOrder live r t o = o := by
  cases live <;> simp [binanceCancelLimitOrder, h]

/-- C8: `cancelLimitOrder` applied twice equals it applied once.  In the
paper engine a first cancel of an active order sets `cancelled` and stamps
`cancelledAt`, and a repeated cancel (and any cancel of an already filled or
cancelled order) changes nothing.  In the live Binance engine any call on an
already-cancelled order is a no-op, and an unknown-order error
(`-2011`/`-2013`) from the exchange is treated as success: the local order
still transitions to cancelled. -/
theorem cancelLimitOrder_idempotent :
    (∀ (t : ℤ) (o : LimitOrderState), o.cancelled = false → o.filled = false →
        (paperCancelLimitOrder t o).cancelled = true ∧
        (paperCancelLimitOrder t o).cancelledAt = some t) ∧
    (∀ (t1 t2 : ℤ) (o : LimitOrderState),
        paperCancelLimitOrder t2 (paperCancelLimitOrder t1 o) = paperCancelLimitOrder t1 o) ∧
    (∀ (live live2 : Bool) (r r2 : CancelApiResult) (t1 t2 : ℤ) (o : LimitOrderState),
        (binanceCancelLimitOrder live r t1 o).cancelled = true →
        binanceCancelLimitOrder live2 r2 t2 (binanceCancelLimitOrder live r t1 o) =
          binanceCancelLimitOrder live r t1 o) ∧
    (∀ (t : ℤ) (o : LimitOrderState) (n : ℕ), o.cancelled = false → o.filled = false →
        binanceOrderIdNum o.orderId = some n →
        binanceCancelLimitOrder true .errUnknownOrder t o =
          { o with cancelled := true, cancelledAt := some t }) := by
  refine ⟨?_, ?_, ?_, ?_⟩
  · intro t o h1 h2
    rw [paperCancel_active t o h1 h2]
    exact ⟨rfl, rfl⟩
  · intro t1 t2 o
    by_cases h1 : o.cancelled = true
    · rw [paperCancel_skip t1 o (Or.inl h1), paperCancel_skip t2 o (Or.inl h1)]
    · by_cases h2 : o.filled = true
      · rw [paperCancel_skip t1 o (Or.inr h2), paperCancel_skip t2 o (Or.inr h2)]
      · rw [paperCancel_active t1 o (by simpa using h1) (by simpa using h2)]
        exact paperCancel_skip t2 _ (Or.inl rfl)
  · intro live live2 r r2 t1 t2 o h
    exact binanceCancel_cancelled_noop live2 r2 t2 _ h
  · intro t o n h1 h2 h3
    simp [binanceCancelLimitOrder, h1, h2, h3]

/-- Witness for C8 at a concrete order: the unknown-order error path marks
`orderW` cancelled, and a repeated paper cancel is a no-op. -/
theorem cancelLimitOrder_idempotent_witness :
    binanceCancelLimitOrder true .errUnknownOrder 5 orderW =
      { orderW with cancelled := true, cancelledAt := some 5 } ∧
    paperCancelLimitOrder 3 (paperCancelLimitOrder 2 orderW) = paperCancelLimitOrder 2 orderW :=
  ⟨cancelLimitOrder_idempotent.2.2.2 5 orderW 123 rfl rfl (by decide),
   cancelLimitOrder_idempotent.2.1 2 3 orderW⟩

/-! ## C5 : NATR calculator lifecycle -/

lemma trList_length (lc : Option ℚ) (cs : List Candle) : (trList lc cs).length = cs.length := by
  induction cs generalizing lc with
  | nil => rfl
  | cons c cs ih => simp [trList, ih]

lemma trList_append (lc : Option ℚ) (cs : List Candle) (c : Candle) :
    trList lc (cs ++ [c]) = trList lc cs ++ [trueRangeOf (lastCloseAfter lc cs) c] := by
  induction cs generalizing lc with
  | nil => simp [trList, lastCloseAfter]
  | cons d ds ih => simp [trList, lastCloseAfter, ih]

lemma natrUpdate_seed_lt (s : NatrState) (c : Candle) (h1 : s.atr = none)
    (h2 : s.trHistory.length + 1 < s.period) :
    natrUpdate s c =
      ({ period := s.period, trHistory := s.trHistory ++ [trueRangeOf s.lastClose c],
         lastClose := some c.close, atr := none }, none) := by
  cases s with
  | mk period trHistory lastClose atr =>
    simp only at h1 h2
    subst h1
    simp only [natrUpdate]
    rw [if_pos (by simpa using h2)]

lemma natrUpdate_seed_done (s : NatrState) (c : Candle) (h1 : s.atr = none)
    (h2 : ¬s.trHistory.length + 1 < s.period) :
    natrUpdate s c =
      ({ period := s.period, trHistory := s.trHistory ++ [trueRangeOf s.lastClose c],
         lastClose := some c.close,
         atr := some ((s.trHistory ++ [trueRangeOf s.lastClose c]).sum / (s.period : ℚ)) },
       natrOutput ((s.trHistory ++ [trueRangeOf s.lastClose c]).sum / (s.period : ℚ)) c.close) := by
  cases s with
  | mk period trHistory lastClose atr =>
    simp only at h1 h2
    subst h1
    simp only [natrUpdate]
    rw [if_neg (by simpa using h2)]

lemma natrUpdate_steady (s : NatrState) (c : Candle) (prev : ℚ) (h : s.atr = some prev) :
    natrUpdate s c =
      ({ period := s.period, trHistory := s.trHistory, lastClose := some c.close,
         atr := some ((prev * ((s.period : ℚ) - 1) + trueRangeOf s.lastClose c) /
           (s.period : ℚ)) },
       natrOutput ((prev * ((s.period : ℚ) - 1) + trueRangeOf s.lastClose c) /
         (s.period : ℚ)) c.close) := by
  cases s with
  | mk period trHistory lastClose atr =>
    simp only at h
    subst h
    simp only [natrUpdate]

lemma natrRun_seedPhase (cs : List Candle) : ∀ (s : NatrState), s.atr = none →
    s.trHistory.length + cs.length < s.period →
    (natrRun s cs).1 =
      { period := s.period, trHistory := s.trHistory ++ trList s.lastClose cs,
        lastClose := lastCloseAfter s.lastClose cs, atr := none } ∧
    ∀ o ∈ (natrRun s cs).2, o = none := by
  induction cs with
  | nil =>
    intro s h1 h2
    cases s with
    | mk period trHistory lastClose atr =>
      simp only at h1
      subst h1
      exact ⟨by simp [natrRun, trList, lastCloseAfter], by simp [natrRun]⟩
  | cons c cs ih =>
    intro s h1 h2
    have hlen : s.trHistory.length + 1 < s.period := by
      simp only [List.length_cons] at h2
      omega
    have hstep := natrUpdate_seed_lt s c h1 hlen
    have hrec := ih ⟨s.period, s.trHistory ++ [trueRangeOf s.lastClose c], some c.close, none⟩
      rfl (by simp only [List.length_append, List.length_cons, List.length_nil] at h2 ⊢; omega)
    constructor
    · show (natrRun s (c :: cs)).1 = _
      simp only [natrRun, hstep]
      rw [hrec.1]
      simp [trList, lastCloseAfter, List.append_assoc]
    · intro o ho
      simp only [natrRun, hstep, List.mem_cons] at ho
      rcases ho with rfl | ho
      · rfl
      · exact hrec.2 o ho

lemma natrOutput_some (atr close v : ℚ) (h : natrOutput atr close = some v) :
    v = atr / close * 100 ∧ 0 < v ∧ 0 < atr ∧ 0 < close := by
  by_cases h1 : atr ≤ 0 ∨ close ≤ 0
  · simp [natrOutput, h1] at h
  · by_cases h2 : 0 < atr / close * 100
    · simp only [natrOutput, if_neg h1, if_pos h2, Option.some.injEq] at h
      push_neg at h1
      subst h
      exact ⟨rfl, h2, h1.1, h1.2⟩
    · simp [natrOutput, h1, h2] at h

lemma natrUpdate_some (s : NatrState) (c : Candle) (v : ℚ)
    (h : (natrUpdate s c).2 = some v) :
    ∃ a, (natrUpdate s c).1.atr = some a ∧ v = a / c.close * 100 ∧ 0 < v := by
  cases ha : s.atr with
  | some prev =>
    rw [natrUpdate_steady s c prev ha] at h ⊢
    obtain ⟨h1, h2, _, _⟩ := natrOutput_some _ _ _ h
    exact ⟨_, rfl, h1, h2⟩
  | none =>
    by_cases hl : s.trHistory.length + 1 < s.period
    · rw [natrUpdate_seed_lt s c ha hl] at h
      cases h
    · rw [natrUpdate_seed_done s c ha hl] at h ⊢
      obtain ⟨h1, h2, _, _⟩ := natrOutput_some _ _ _ h
      exact ⟨_, rfl, h1, h2⟩

/-- C5: per coin, the NATR calculator returns `null` for each of the first
`period - 1` candles; at the `period`-th candle the ATR is seeded with the
arithmetic mean of the `period` collected true ranges (`high - low` for the
first candle, `max(high - low, |high - prevClose|, |low - prevClose|)`
afterwards) and the first value is published through the output guard;
later candles follow Wilder smoothing
`ATR = (ATR * (period - 1) + TR) / period`; every non-null value equals
`ATR / close * 100` and is strictly positive (finiteness is automatic over
`ℚ`), and `null` is returned instead whenever that value would be
non-positive. -/
theorem natr_lifecycle :
    (∀ (period : ℕ) (cs : List Candle), cs.length < period →
        ∀ o ∈ (natrRun (initNatr period) cs).2, o = none) ∧
    (∀ (period : ℕ) (cs : List Candle) (c : Candle), cs.length + 1 = period →
        (natrUpdate (natrRun (initNatr period) cs).1 c).2 =
          natrOutput ((trList none (cs ++ [c])).sum / (period : ℚ)) c.close ∧
        (natrUpdate (natrRun (initNatr period) cs).1 c).1.atr =
          some ((trList none (cs ++ [c])).sum / (period : ℚ))) ∧
    (∀ (s : NatrState) (c : Candle) (prev : ℚ), s.atr = some prev →
        (natrUpdate s c).1.atr =
          some ((prev * ((s.period : ℚ) - 1) + trueRangeOf s.lastClose c) / (s.period : ℚ))) ∧
    (∀ (s : NatrState) (c : Candle) (v : ℚ), (natrUpdate s c).2 = some v →
        ∃ a, (natrUpdate s c).1.atr = some a ∧ v = a / c.close * 100 ∧ 0 < v) ∧
    (∀ (s : NatrState) (c : Candle) (a : ℚ), (natrUpdate s c).1.atr = some a →
        a / c.close * 100 ≤ 0 → (natrUpdate s c).2 = none) := by
  refine ⟨?_, ?_, ?_, natrUpdate_some, ?_⟩
  · intro period cs hlen
    exact (natrRun_seedPhase cs (initNatr period) rfl (by simpa [initNatr] using hlen)).2
  · intro period cs c hlen
    have hrun := (natrRun_seedPhase cs (initNatr period) rfl
      (by simp [initNatr]; omega)).1
    simp only [initNatr, List.nil_append] at hrun ⊢
    rw [hrun]
    have hdone := natrUpdate_seed_done ⟨period, trList none cs, lastCloseAfter none cs, none⟩
      c rfl (by simp [trList_length]; omega)
    simp only at hdone
    rw [hdone]
    have htr : trList none cs ++ [trueRangeOf (lastCloseAfter none cs) c] =
        trList none (cs ++ [c]) := (trList_append none cs c).symm
    rw [htr]
    exact ⟨rfl, rfl⟩
  · intro s c prev h
    rw [natrUpdate_steady s c prev h]
  · intro s c a ha hle
    cases ho : (natrUpdate s c).2 with
    | none => rfl
    | some v =>
      obtain ⟨a2, ha2, hv, hpos⟩ := natrUpdate_some s c v ho
      rw [ha] at ha2
      injection ha2 with ha2
      subst ha2
      rw [hv] at hpos
      exact absurd hle (not_le.mpr hpos)

/-- Witness for C5 with `period = 3` and three concrete candles: the value
published at the seed boundary is the mean ATR `4` over close `10`,
i.e. NATR `40`. -/
theorem natr_lifecycle_witness :
    (natrUpdate (natrRun (initNatr 3) [candleA, candleB]).1 candleC).2 = some 40 := by
  rw [(natr_lifecycle.2.1 3 [candleA, candleB] candleC (by decide)).1]
  norm_num [trList, trueRangeOf, lastCloseAfter, natrOutput, candleA, candleB, candleC]

/-! ## C10 / C4 : level parsing and the large-order detector -/

lemma parsePair_pos (a b : JsNum) (p s : ℚ) (h : parsePair a b = some (p, s)) :
    0 < p ∧ 0 < s := by
  cases a with
  | nonfinite => simp [parsePair] at h
  | fin q =>
    cases b with
    | nonfinite => simp [parsePair] at h
    | fin r =>
      by_cases hc : q ≤ 0 ∨ r ≤ 0
      · simp [parsePair, hc] at h
      · simp only [parsePair, if_neg hc, Option.some.injEq, Prod.mk.injEq] at h
        push_neg at hc
        obtain ⟨rfl, rfl⟩ := h
        exact hc

lemma extractPriceSize_pos (lvl : RawLevel) (ps : ℚ × ℚ)
    (h : extractPriceSize lvl = some ps) : 0 < ps.1 ∧ 0 < ps.2 := by
  obtain ⟨p, s⟩ := ps
  cases lvl with
  | arr a b => exact parsePair_pos a b p s h
  | obj a b c d => exact parsePair_pos _ _ p s h
  | invalid => simp [extractPriceSize] at h

lemma extractOpt_pos (lvl : Option RawLevel) (ps : ℚ × ℚ)
    (h : extractOpt lvl = some ps) : 0 < ps.1 ∧ 0 < ps.2 := by
  cases lvl with
  | none => simp [extractOpt] at h
  | some l => exact extractPriceSize_pos l ps (by simpa [extractOpt] using h)

lemma checkOrder_eq_some_iff (cfg : Config) (now : ℤ) (coin : String) (side : BookSide)
    (p s m : ℚ) (o : LargeOrder) :
    checkOrder cfg now coin side p s m = some o ↔
      ((cfg.perCoinMinOrderSizeUsd coin.toUpper).getD cfg.minOrderSizeUsd ≤ p * s ∧
       0 ≤ distOf side p m ∧ distOf side p m ≤ cfg.maxDistancePercent ∧
       o = { coin := coin, side := side, price := p, size := s, valueUsd := p * s,
             distancePercent := distOf side p m, timestamp := now }) := by
  constructor
  · intro h
    by_cases h1 : p * s < (cfg.perCoinMinOrderSizeUsd coin.toUpper).getD cfg.minOrderSizeUsd
    · simp [checkOrder, h1] at h
    · by_cases h2 : distOf side p m < 0 ∨ distOf side p m > cfg.maxDistancePercent
      · simp [checkOrder, h1, h2] at h
      · simp only [checkOrder, if_neg h1, if_neg h2, Option.some.injEq] at h
        push_neg at h1 h2
        exact ⟨h1, h2.1, h2.2, h.symm⟩
  · rintro ⟨hmin, hd0, hdm, rfl⟩
    have h1 : ¬p * s < (cfg.perCoinMinOrderSizeUsd coin.toUpper).getD cfg.minOrderSizeUsd :=
      not_lt.mpr hmin
    have h2 : ¬(distOf side p m < 0 ∨ distOf side p m > cfg.maxDistancePercent) := by
      push_neg
      exact ⟨hd0, hdm⟩
    simp only [checkOrder, if_neg h1, if_neg h2]

/-- C10: every level accepted by `extractPriceSize` has a (finite) strictly
positive price and size; every emitted `LargeOrder` therefore has positive
price and size and carries `valueUsd = price * size`; a snapshot with an
empty side or an unparseable best bid or best ask emits nothing; the mid
price, when computed, is strictly positive; and the anchor-visibility test
only succeeds for positive anchor prices. -/
theorem level_parsing_safety :
    (∀ (lvl : RawLevel) (p s : ℚ), extractPriceSize lvl = some (p, s) → 0 < p ∧ 0 < s) ∧
    (∀ (cfg : Config) (now : ℤ) (snap : OrderBookSnapshot) (o : LargeOrder),
        o ∈ processOrderBook cfg now snap →
        0 < o.price ∧ 0 < o.size ∧ o.valueUsd = o.price * o.size) ∧
    (∀ (cfg : Config) (now : ℤ) (snap : OrderBookSnapshot),
        snap.bids = [] ∨ snap.asks = [] ∨ extractOpt snap.bids.head? = none ∨
          extractOpt snap.asks.head? = none →
        processOrderBook cfg now snap = []) ∧
    (∀ (bids asks : List RawLevel) (bb aa : ℚ × ℚ),
        extractOpt bids.head? = some bb → extractOpt asks.head? = some aa →
        0 < (bb.1 + aa.1) / 2) ∧
    (∀ (book : List RawLevel) (a : ℚ), anchorInView book a = true → 0 < a) := by
  have hpos : ∀ (lvl : RawLevel) (p s : ℚ), extractPriceSize lvl = some (p, s) →
      0 < p ∧ 0 < s := fun lvl p s h => extractPriceSize_pos lvl (p, s) h
  refine ⟨hpos, ?_, ?_, ?_, ?_⟩
  · intro cfg now snap o ho
    cases hb : snap.bids with
    | nil => simp [processOrderBook, hb] at ho
    | cons b0 bs =>
      cases ha : snap.asks with
      | nil => simp [processOrderBook, hb, ha] at ho
      | cons a0 asks =>
        cases heb : extractPriceSize b0 with
        | none => simp [processOrderBook, hb, ha, heb] at ho
        | some bb =>
          cases hea : extractPriceSize a0 with
          | none => simp [processOrderBook, hb, ha, heb, hea] at ho
          | some aa =>
            simp only [processOrderBook, hb, ha, heb, hea] at ho
            by_cases hm : (bb.1 + aa.1) / 2 ≤ 0
            · rw [if_pos hm] at ho
              simp at ho
            · rw [if_neg hm] at ho
              simp only [List.mem_append, List.mem_filterMap, Option.bind_eq_some] at ho
              rcases ho with ⟨lvl, _, ps, hex, hco⟩ | ⟨lvl, _, ps, hex, hco⟩ <;>
              · obtain ⟨hp, hs⟩ := extractPriceSize_pos lvl ps hex
                obtain ⟨_, _, _, rfl⟩ := (checkOrder_eq_some_iff _ _ _ _ _ _ _ _).mp hco
                exact ⟨hp, hs, rfl⟩
  · intro cfg now snap h
    cases hb : snap.bids with
    | nil => simp [processOrderBook, hb]
    | cons b0 bs =>
      cases ha : snap.asks with
      | nil => simp [processOrderBook, hb, ha]
      | cons a0 asks =>
        rcases h with h | h | h | h
        · simp [hb] at h
        · simp [ha] at h
        · rw [hb] at h
          simp only [List.head?, extractOpt, Option.bind] at h
          simp [processOrderBook, hb, ha, h]
        · rw [ha] at h
          simp only [List.head?, extractOpt, Option.bind] at h
          simp [processOrderBook, hb, ha, h]
  · intro bids asks bb aa hbb haa
    have h1 := (extractOpt_pos _ _ hbb).1
    have h2 := (extractOpt_pos _ _ haa).1
    linarith
  · intro book a h
    simp only [anchorInView, List.any_eq_true] at h
    obtain ⟨lvl, _, hmatch⟩ := h
    cases hx : extractPriceSize lvl with
    | none => rw [hx] at hmatch; simp at hmatch
    | some ps =>
      rw [hx] at hmatch
      simp only [decide_eq_true_eq] at hmatch
      exact hmatch ▸ (extractPriceSize_pos lvl ps hx).1

/-- Witness for C10: a concrete array level parses to a positive pair. -/
theorem level_parsing_safety_witness : (0:ℚ) < 100 ∧ (0:ℚ) < 30000 :=
  level_parsing_safety.1 (.arr (.fin 100) (.fin 30000)) 100 30000
    (by norm_num [extractPriceSize, parsePair])

/-- C4: with a parseable best bid and best ask (mid = their average), the
detector emits a `LargeOrder` for a parsed level exactly when
`valueUsd = price * size` reaches the per-coin effective minimum and the
distance from mid lies in `[0, maxDistancePercent]`; every emitted order
carries exactly the computed `valueUsd` and `distancePercent`. -/
theorem large_order_emission_characterisation
    (cfg : Config) (now : ℤ) (snap : OrderBookSnapshot)
    (b0 a0 : RawLevel) (bs asks : List RawLevel) (bb aa : ℚ × ℚ)
    (hb : snap.bids = b0 :: bs) (ha : snap.asks = a0 :: asks)
    (heb : extractPriceSize b0 = some bb) (hea : extractPriceSize a0 = some aa)
    (o : LargeOrder) :
    o ∈ processOrderBook cfg now snap ↔
      ((∃ lvl ∈ snap.bids, ∃ p s, extractPriceSize lvl = some (p, s) ∧
          (cfg.perCoinMinOrderSizeUsd snap.coin.toUpper).getD cfg.minOrderSizeUsd ≤ p * s ∧
          0 ≤ distOf .bid p ((bb.1 + aa.1) / 2) ∧
          distOf .bid p ((bb.1 + aa.1) / 2) ≤ cfg.maxDistancePercent ∧
          o = { coin := snap.coin, side := .bid, price := p, size := s, valueUsd := p * s,
                distancePercent := distOf .bid p ((bb.1 + aa.1) / 2), timestamp := now }) ∨
       (∃ lvl ∈ snap.asks, ∃ p s, extractPriceSize lvl = some (p, s) ∧
          (cfg.perCoinMinOrderSizeUsd snap.coin.toUpper).getD cfg.minOrderSizeUsd ≤ p * s ∧
          0 ≤ distOf .ask p ((bb.1 + aa.1) / 2) ∧
          distOf .ask p ((bb.1 + aa.1) / 2) ≤ cfg.maxDistancePercent ∧
          o = { coin := snap.coin, side := .ask, price := p, size := s, valueUsd := p * s,
                distancePercent := distOf .ask p ((bb.1 + aa.1) / 2), timestamp := now })) := by
  have hmid : 0 < (bb.1 + aa.1) / 2 := by
    have h1 := (extractPriceSize_pos b0 bb heb).1
    have h2 := (extractPriceSize_pos a0 aa hea).1
    linarith
  simp only [processOrderBook, hb, ha, heb, hea]
  rw [if_neg (not_le.mpr hmid)]
  simp only [List.mem_append, List.mem_filterMap, Option.bind_eq_some, Prod.exists,
    checkOrder_eq_some_iff]

/-- Witness for C4: the 3,000,000 USD best bid of `snapDetect` at distance 0
from the mid is emitted. -/
theorem large_order_emission_witness :
    ({ coin := "BTC", side := .bid, price := 100, size := 30000, valueUsd := 3000000,
       distancePercent := 0, timestamp := 0 } : LargeOrder) ∈
      processOrderBook cfgW 0 snapDetect := by
  refine (large_order_emission_characterisation cfgW 0 snapDetect _ _ _ _ (100, 30000) (100, 1)
    rfl rfl (by norm_num [extractPriceSize, parsePair])
    (by norm_num [extractPriceSize, parsePair]) _).mpr ?_
  left
  refine ⟨.arr (.fin 100) (.fin 30000), by simp [snapDetect], 100, 30000,
    by norm_num [extractPriceSize, parsePair], ?_, ?_, ?_, ?_⟩
  · norm_num [cfgW]
  · norm_num [distOf]
  · norm_num [distOf, cfgW]
  · simp only [LargeOrder.mk.injEq, snapDetect]
    norm_num [distOf]

/-! ## Per-position snapshot-loop lemmas -/

lemma processTpTargets_le (posId : String) (mid : ℚ) (side : Side) :
    ∀ (ts : List TpTarget) (sz : ℚ), (processTpTargets posId mid side ts sz).2.1 ≤ sz := by
  intro ts
  induction ts with
  | nil => intro sz; simp [processTpTargets]
  | cons t rest ih =>
    intro sz
    simp only [processTpTargets]
    split_ifs with h1 h2
    · simpa using ih sz
    · push_neg at h1
      have := ih (sz - t.sizeUsd)
      simpa using le_trans this (by linarith [h1.2])
    · simpa using ih sz

lemma processTpTargets_cmds (posId : String) (mid : ℚ) (side : Side) :
    ∀ (ts : List TpTarget) (sz : ℚ) (c : EngineCmd),
      c ∈ (processTpTargets posId mid side ts sz).2.2 →
      ∃ szq, c = .close posId szq "tp_hit" := by
  intro ts
  induction ts with
  | nil => intro sz c hc; simp [processTpTargets] at hc
  | cons t rest ih =>
    intro sz c hc
    simp only [processTpTargets] at hc
    split_ifs at hc with h1 h2
    · exact ih sz c (by simpa using hc)
    · simp only [List.mem_cons] at hc
      rcases hc with rfl | hc
      · exact ⟨t.sizeUsd, rfl⟩
      · exact ih (sz - t.sizeUsd) c (by simpa using hc)
    · exact ih sz c (by simpa using hc)

lemma tpPhase_preserves (midPrice : Option ℚ) (p : PositionState) :
    (tpPhase midPrice p).position.id = p.id ∧
    (tpPhase midPrice p).position.coin = p.coin ∧
    (tpPhase midPrice p).position.sizeUsd ≤ p.sizeUsd ∧
    (tpPhase midPrice p).position.initialSizeUsd = p.initialSizeUsd ∧
    (tpPhase midPrice p).position.entryLimitOrders = p.entryLimitOrders := by
  rcases midPrice with _ | m
  · simp [tpPhase]
  · rcases htp : p.tpTargets with _ | ts
    · simp [tpPhase, htp]
    · simp only [tpPhase, htp]
      split_ifs with h1 h2
      · simp
      · exact ⟨rfl, rfl, processTpTargets_le _ _ _ _ _, rfl, rfl⟩
      · exact ⟨rfl, rfl, processTpTargets_le _ _ _ _ _, rfl, rfl⟩

lemma tpPhase_cmds (midPrice : Option ℚ) (p : PositionState) (c : EngineCmd)
    (hc : c ∈ (tpPhase midPrice p).cmds) : ∃ szq, c = .close p.id szq "tp_hit" := by
  rcases midPrice with _ | m
  · simp [tpPhase] at hc
  · rcases htp : p.tpTargets with _ | ts
    · simp [tpPhase, htp] at hc
    · simp only [tpPhase, htp] at hc
      split_ifs at hc with h1 h2
      · simp at hc
      · exact processTpTargets_cmds _ _ _ _ _ c (by simpa using hc)
      · exact processTpTargets_cmds _ _ _ _ _ c (by simpa using hc)

lemma coreWithWindow_preserves (book : List RawLevel) (midPrice : Option ℚ)
    (side : BookSide) (a : ℚ) (p : PositionState) (f l : ℚ × ℚ) :
    (coreWithWindow book midPrice side a p f l).position.id = p.id ∧
    (coreWithWindow book midPrice side a p f l).position.coin = p.coin ∧
    (coreWithWindow book midPrice side a p f l).position.sizeUsd ≤ p.sizeUsd ∧
    (coreWithWindow book midPrice side a p f l).position.initialSizeUsd = p.initialSizeUsd ∧
    (coreWithWindow book midPrice side a p f l).position.entryLimitOrders =
      p.entryLimitOrders := by
  simp only [coreWithWindow]
  split_ifs with h1 h2 h3 h4
  all_goals first
    | exact tpPhase_preserves _ _
    | simp

lemma coreWithWindow_cmds (book : List RawLevel) (midPrice : Option ℚ)
    (side : BookSide) (a : ℚ) (p : PositionState) (f l : ℚ × ℚ) (c : EngineCmd)
    (hc : c ∈ (coreWithWindow book midPrice side a p f l).cmds) :
    ∃ szq, c = .close p.id szq "tp_hit" := by
  simp only [coreWithWindow] at hc
  split_ifs at hc with h1 h2 h3 h4
  all_goals first
    | exact tpPhase_cmds _ _ c hc
    | simp at hc

lemma processPositionCore_preserves (rawBids rawAsks : List RawLevel) (midPrice : Option ℚ)
    (side : BookSide) (a : ℚ) (p : PositionState) :
    (processPositionCore rawBids rawAsks midPrice side a p).position.id = p.id ∧
    (processPositionCore rawBids rawAsks midPrice side a p).position.coin = p.coin ∧
    (processPositionCore rawBids rawAsks midPrice side a p).position.sizeUsd ≤ p.sizeUsd ∧
    (processPositionCore rawBids rawAsks midPrice side a p).position.initialSizeUsd =
      p.initialSizeUsd ∧
    (processPositionCore rawBids rawAsks midPrice side a p).position.entryLimitOrders =
      p.entryLimitOrders := by
  rcases hf : extractOpt (bookOf side rawBids rawAsks).head? with _ | f
  · simp [processPositionCore, hf]
  · rcases hl : extractOpt (bookOf side rawBids rawAsks).getLast? with _ | l
    · simp [processPositionCore, hf, hl]
    · simp only [processPositionCore, hf, hl]
      exact coreWithWindow_preserves _ _ _ _ _ _ _

lemma processPositionCore_cmds (rawBids rawAsks : List RawLevel) (midPrice : Option ℚ)
    (side : BookSide) (a : ℚ) (p : PositionState) (c : EngineCmd)
    (hc : c ∈ (processPositionCore rawBids rawAsks midPrice side a p).cmds) :
    ∃ szq, c = .close p.id szq "tp_hit" := by
  rcases hf : extractOpt (bookOf side rawBids rawAsks).head? with _ | f
  · simp [processPositionCore, hf] at hc
  · rcases hl : extractOpt (bookOf side rawBids rawAsks).getLast? with _ | l
    · simp [processPositionCore, hf, hl] at hc
    · simp only [processPositionCore, hf, hl] at hc
      exact coreWithWindow_cmds _ _ _ _ _ _ _ c hc

lemma processPosition_preserves (rawBids rawAsks : List RawLevel) (midPrice : Option ℚ)
    (p : PositionState) :
    (processPosition rawBids rawAsks midPrice p).position.id = p.id ∧
    (processPosition rawBids rawAsks midPrice p).position.coin = p.coin ∧
    (processPosition rawBids rawAsks midPrice p).position.sizeUsd ≤ p.sizeUsd ∧
    (processPosition rawBids rawAsks midPrice p).position.initialSizeUsd = p.initialSizeUsd ∧
    (processPosition rawBids rawAsks midPrice p).position.entryLimitOrders =
      p.entryLimitOrders := by
  unfold processPosition
  split
  · exact processPositionCore_preserves _ _ _ _ _ _
  · exact ⟨rfl, rfl, le_refl _, rfl, rfl⟩

lemma processPosition_cmds (rawBids rawAsks : List RawLevel) (midPrice : Option ℚ)
    (p : PositionState) (c : EngineCmd)
    (hc : c ∈ (processPosition rawBids rawAsks midPrice p).cmds) :
    ∃ szq, c = .close p.id szq "tp_hit" := by
  unfold processPosition at hc
  split at hc
  · exact processPositionCore_cmds _ _ _ _ _ _ c hc
  · simp at hc

lemma processPosition_eq_core (rawBids rawAsks : List RawLevel) (midPrice : Option ℚ)
    (side : BookSide) (a : ℚ) (p : PositionState)
    (h1 : p.anchorSide = some side) (h2 : p.anchorPrice = some a) :
    processPosition rawBids rawAsks midPrice p =
      processPositionCore rawBids rawAsks midPrice side a p := by
  simp [processPosition, h1, h2]

lemma snapshotStep_preserves (snap : OrderBookSnapshot) (p : PositionState) :
    (snapshotStep snap p).position.id = p.id ∧
    (snapshotStep snap p).position.coin = p.coin ∧
    (snapshotStep snap p).position.sizeUsd ≤ p.sizeUsd ∧
    (snapshotStep snap p).position.initialSizeUsd = p.initialSizeUsd ∧
    (snapshotStep snap p).position.entryLimitOrders = p.entryLimitOrders := by
  unfold snapshotStep
  split
  · exact processPosition_preserves _ _ _ _
  · exact ⟨rfl, rfl, le_refl _, rfl, rfl⟩

lemma snapshotStep_cmds (snap : OrderBookSnapshot) (p : PositionState) (c : EngineCmd)
    (hc : c ∈ (snapshotStep snap p).cmds) : ∃ szq, c = .close p.id szq "tp_hit" := by
  unfold snapshotStep at hc
  split at hc
  · exact processPosition_cmds _ _ _ _ c hc
  · simp at hc

lemma processPositionCore_eq_window (rawBids rawAsks : List RawLevel) (mid : Option ℚ)
    (side : BookSide) (a : ℚ) (p : PositionState) (f l : ℚ × ℚ)
    (hf : extractOpt (bookOf side rawBids rawAsks).head? = some f)
    (hl : extractOpt (bookOf side rawBids rawAsks).getLast? = some l) :
    processPositionCore rawBids rawAsks mid side a p =
      coreWithWindow (bookOf side rawBids rawAsks) mid side a p f l := by
  simp only [processPositionCore, hf, hl]

lemma coreWithWindow_against (book : List RawLevel) (mid : Option ℚ) (side : BookSide)
    (a : ℚ) (p : PositionState) (f l : ℚ × ℚ)
    (hout : ¬((visibleWindow side f l).1 ≤ a ∧ a ≤ (visibleWindow side f l).2))
    (hadv : (side = .bid ∧ a > (visibleWindow side f l).2) ∨
      (side = .ask ∧ a < (visibleWindow side f l).1)) :
    coreWithWindow book mid side a p f l =
      { position := p, closeReason := some "anchor_lost_out_of_view_against", cmds := [] } := by
  simp only [coreWithWindow]
  rw [if_pos hout, if_pos hadv]

lemma coreWithWindow_profit (book : List RawLevel) (mid : Option ℚ) (side : BookSide)
    (a : ℚ) (p : PositionState) (f l : ℚ × ℚ)
    (hout : ¬((visibleWindow side f l).1 ≤ a ∧ a ≤ (visibleWindow side f l).2))
    (hnadv : ¬((side = .bid ∧ a > (visibleWindow side f l).2) ∨
      (side = .ask ∧ a < (visibleWindow side f l).1))) :
    coreWithWindow book mid side a p f l =
      { position := p, closeReason := none, cmds := [] } := by
  simp only [coreWithWindow]
  rw [if_pos hout, if_neg hnadv]

lemma coreWithWindow_removed (book : List RawLevel) (mid : Option ℚ) (side : BookSide)
    (a : ℚ) (p : PositionState) (f l : ℚ × ℚ)
    (hin : (visibleWindow side f l).1 ≤ a ∧ a ≤ (visibleWindow side f l).2)
    (hview : anchorInView book a = false) :
    coreWithWindow book mid side a p f l =
      { position := p, closeReason := some "anchor_removed_from_book_in_view", cmds := [] } := by
  simp only [coreWithWindow]
  rw [if_neg (not_not_intro hin), if_pos (by simp [hview])]

lemma coreWithWindow_below (book : List RawLevel) (mid : Option ℚ) (side : BookSide)
    (a : ℚ) (p : PositionState) (f l : ℚ × ℚ)
    (hin : (visibleWindow side f l).1 ≤ a ∧ a ≤ (visibleWindow side f l).2)
    (hview : anchorInView book a = true)
    (hval : anchorValue book a ≤ p.anchorMinValueUsd.getD 0) :
    coreWithWindow book mid side a p f l =
      { position := p, closeReason := some "anchor_value_below_threshold", cmds := [] } := by
  simp only [coreWithWindow]
  rw [if_neg (not_not_intro hin), if_neg (by simp [hview]), if_pos hval]

lemma coreWithWindow_tp (book : List RawLevel) (mid : Option ℚ) (side : BookSide)
    (a : ℚ) (p : PositionState) (f l : ℚ × ℚ)
    (hin : (visibleWindow side f l).1 ≤ a ∧ a ≤ (visibleWindow side f l).2)
    (hview : anchorInView book a = true)
    (hval : ¬anchorValue book a ≤ p.anchorMinValueUsd.getD 0) :
    coreWithWindow book mid side a p f l = tpPhase mid p := by
  simp only [coreWithWindow]
  rw [if_neg (not_not_intro hin), if_neg (by simp [hview]), if_neg hval]

lemma tpPhase_reason (mid : Option ℚ) (p : PositionState) :
    (tpPhase mid p).closeReason = none ∨ (tpPhase mid p).closeReason = some "tp_all_hit" := by
  rcases mid with _ | m
  · simp [tpPhase]
  · rcases htp : p.tpTargets with _ | ts
    · simp [tpPhase, htp]
    · simp only [tpPhase, htp]
      split_ifs <;> simp

lemma tpPhase_run (m : ℚ) (p : PositionState) (ts : List TpTarget)
    (htp : p.tpTargets = some ts) (hne : ts.isEmpty = false) :
    (tpPhase (some m) p).position.sizeUsd = (processTpTargets p.id m p.side ts p.sizeUsd).2.1 ∧
    (tpPhase (some m) p).position.tpTargets =
      some (processTpTargets p.id m p.side ts p.sizeUsd).1 ∧
    (tpPhase (some m) p).cmds = (processTpTargets p.id m p.side ts p.sizeUsd).2.2 ∧
    ((tpPhase (some m) p).closeReason = some "tp_all_hit" ↔
      (processTpTargets p.id m p.side ts p.sizeUsd).2.1 ≤ 0) ∧
    ((tpPhase (some m) p).closeReason = none ↔
      ¬(processTpTargets p.id m p.side ts p.sizeUsd).2.1 ≤ 0) := by
  simp only [tpPhase, htp]
  rw [if_neg (by simp [hne])]
  by_cases h : (processTpTargets p.id m p.side ts p.sizeUsd).2.1 ≤ 0
  · rw [if_pos h]
    refine ⟨rfl, rfl, rfl, ?_, ?_⟩ <;> simp [h]
  · rw [if_neg h]
    refine ⟨rfl, rfl, rfl, ?_, ?_⟩ <;> simp [h]

lemma paperOpenPosition_fields (cfg : Config) (now : ℤ) (idNum : ℕ) (sig : TradeSignal)
    (pos : PositionState) (h : paperOpenPosition cfg now idNum sig = some pos) :
    pos.entryLimitOrders = none ∧ pos.initialSizeUsd = none ∧
    pos.sizeUsd = sig.targetPositionSizeUsd := by
  unfold paperOpenPosition at h
  by_cases hle : cfg.tradePositionSizeUsd ≤ 0
  · rw [if_pos hle] at h
    cases h
  · rw [if_neg hle] at h
    cases h
    exact ⟨rfl, rfl, rfl⟩

lemma onLargeOrder_guarded (cfg : Config) (natr : Option ℚ) (st : ModuleState)
    (order : LargeOrder) (pos0 : PositionState)
    (hen : cfg.tradeEnabled = true) (hmode : cfg.tradeMode ≠ .SCREEN_ONLY)
    (hpv : ¬(cfg.tradeMode = .TRADE_PAPER ∧ cfg.tradeExecutionVenue ≠ .PAPER))
    (hpend : st.pendingCoins.contains order.coin.toUpper = false)
    (hnopos : (st.openPositions.any fun p => p.coin.toUpper = order.coin.toUpper) = false)
    (hrisk : canOpenPosition cfg.tradeMaxOpenPositions order.coin st.openPositions = true) :
    ∃ pos2, (onLargeOrder cfg natr (some pos0) st order).openPositions =
        st.openPositions ++ [pos2] ∧
      pos2.anchorMinValueUsd = some (max (order.valueUsd * cfg.tradeAnchorMinValueFraction)
        cfg.tradeAnchorMinValueUsd) ∧
      pos2.anchorInitialValueUsd = some order.valueUsd ∧
      pos2.anchorPrice = some order.price ∧
      pos2.anchorSide = some order.side ∧
      pos2.entryLimitOrders = pos0.entryLimitOrders ∧
      pos2.sizeUsd = pos0.sizeUsd ∧
      pos2.initialSizeUsd = pos0.initialSizeUsd := by
  simp only [onLargeOrder]
  rw [if_neg (by simp [hen, hmode]), if_neg hpv, if_neg (by simpa using hpend),
    if_neg (by simpa using hnopos), if_neg (by simp [hrisk])]
  rcases natr with _ | n
  · dsimp only
    split_ifs <;> exact ⟨_, rfl, rfl, rfl, rfl, rfl, rfl, rfl, rfl⟩
  · dsimp only
    split_ifs <;> exact ⟨_, rfl, rfl, rfl, rfl, rfl, rfl, rfl, rfl⟩

lemma onLargeOrder_append (cfg : Config) (natr : Option ℚ) (epos : Option PositionState)
    (st : ModuleState) (order : LargeOrder) :
    (onLargeOrder cfg natr epos st order).openPositions = st.openPositions ∨
    ∃ pos0 pos2, epos = some pos0 ∧
      (onLargeOrder cfg natr epos st order).openPositions = st.openPositions ++ [pos2] ∧
      pos2.entryLimitOrders = pos0.entryLimitOrders := by
  rcases epos with _ | pos0
  · refine Or.inl ?_
    simp only [onLargeOrder]
    split_ifs <;> rfl
  · simp only [onLargeOrder]
    split_ifs
    all_goals try exact Or.inl rfl
    all_goals refine Or.inr ?_
    all_goals rcases natr with _ | n
    all_goals try dsimp only
    all_goals try split_ifs
    all_goals exact ⟨pos0, _, rfl, rfl, rfl⟩

/-! ## Ledger-level lemmas for `onOrderBookSnapshot` -/

lemma snapshot_positions_source (cfg : Config) (positions : List PositionState)
    (snap : OrderBookSnapshot) :
    ∀ q ∈ (onOrderBookSnapshot cfg positions snap).positions,
      ∃ p ∈ positions, q.id = p.id ∧ q.coin = p.coin ∧ q.sizeUsd ≤ p.sizeUsd ∧
        q.initialSizeUsd = p.initialSizeUsd ∧ q.entryLimitOrders = p.entryLimitOrders := by
  intro q hq
  unfold onOrderBookSnapshot at hq
  split_ifs at hq with h1 h2
  · exact ⟨q, hq, rfl, rfl, le_refl _, rfl, rfl⟩
  · exact ⟨q, hq, rfl, rfl, le_refl _, rfl, rfl⟩
  · simp only [List.mem_filter, List.mem_map] at hq
    obtain ⟨⟨r, ⟨p, hp, hpr⟩, hqr⟩, _⟩ := hq
    subst hpr
    subst hqr
    obtain ⟨e1, e2, e3, e4, e5⟩ := snapshotStep_preserves snap p
    exact ⟨p, hp, e1, e2, e3, e4, e5⟩

lemma snapshot_toClose_mem (cfg : Config) (positions : List PositionState)
    (snap : OrderBookSnapshot) (p : PositionState) (r : String)
    (hen : cfg.tradeEnabled = true) (hmode : cfg.tradeMode ≠ .SCREEN_ONLY)
    (hp : p ∈ positions) (hrel : isRelevant snap.coin p = true)
    (hr : (processPosition snap.bids snap.asks (midOf snap) p).closeReason = some r) :
    ((processPosition snap.bids snap.asks (midOf snap) p).position, r) ∈
      (onOrderBookSnapshot cfg positions snap).toClose := by
  have hstep : snapshotStep snap p = processPosition snap.bids snap.asks (midOf snap) p := by
    simp [snapshotStep, hrel]
  unfold onOrderBookSnapshot
  rw [if_neg (by simp [hen, hmode]), if_neg (by
    simp only [List.isEmpty_iff]
    exact List.ne_nil_of_mem (List.mem_filter.mpr ⟨hp, hrel⟩))]
  refine List.mem_filterMap.mpr ⟨snapshotStep snap p, List.mem_map_of_mem _ hp, ?_⟩
  rw [hstep, hr]
  rfl

lemma snapshot_closed_removed (cfg : Config) (positions : List PositionState)
    (snap : OrderBookSnapshot) (q : PositionState) (r : String)
    (h : (q, r) ∈ (onOrderBookSnapshot cfg positions snap).toClose) :
    ∀ q2 ∈ (onOrderBookSnapshot cfg positions snap).positions, q2.id ≠ q.id := by
  intro q2 hq2
  unfold onOrderBookSnapshot at h hq2
  split_ifs at h hq2 with h1 h2
  · simp at h
  · simp at h
  · simp only [List.mem_filter, decide_eq_true_eq] at hq2
    intro heq
    refine hq2.2 ?_
    rw [heq]
    exact List.elem_iff.mpr
      (List.mem_map_of_mem (fun pr => pr.1.id) h)

lemma snapshot_close_cmd (cfg : Config) (positions : List PositionState)
    (snap : OrderBookSnapshot) (q : PositionState) (r : String)
    (h : (q, r) ∈ (onOrderBookSnapshot cfg positions snap).toClose) :
    EngineCmd.close q.id q.sizeUsd r ∈ (onOrderBookSnapshot cfg positions snap).cmds := by
  unfold onOrderBookSnapshot at h ⊢
  split_ifs at h ⊢ with h1 h2
  · simp at h
  · simp at h
  · exact List.mem_append_right _
      (List.mem_map_of_mem (fun pr => EngineCmd.close pr.1.id pr.1.sizeUsd pr.2) h)

lemma snapshot_cmds_close (cfg : Config) (positions : List PositionState)
    (snap : OrderBookSnapshot) (c : EngineCmd)
    (hc : c ∈ (onOrderBookSnapshot cfg positions snap).cmds) :
    ∃ i szq rq, c = .close i szq rq := by
  unfold onOrderBookSnapshot at hc
  split_ifs at hc with h1 h2
  · simp at hc
  · simp at hc
  · rcases List.mem_append.mp hc with hl | hr
    · simp only [List.mem_flatten, List.mem_map] at hl
      obtain ⟨l, ⟨s, ⟨p, hp, hps⟩, hsl⟩, hcl⟩ := hl
      subst hps
      subst hsl
      obtain ⟨szq, rfl⟩ := snapshotStep_cmds snap p c hcl
      exact ⟨p.id, szq, "tp_hit", rfl⟩
    · simp only [List.mem_map] at hr
      obtain ⟨pr, _, rfl⟩ := hr
      exact ⟨pr.1.id, pr.1.sizeUsd, pr.2, rfl⟩

/-! ## C3 : out-of-view anchors -/

lemma coreWithWindow_inRange_reason (book : List RawLevel) (mid : Option ℚ)
    (side : BookSide) (a : ℚ) (p : PositionState) (f l : ℚ × ℚ)
    (hin : (visibleWindow side f l).1 ≤ a ∧ a ≤ (visibleWindow side f l).2) :
    (coreWithWindow book mid side a p f l).closeReason ≠
      some "anchor_lost_out_of_view_against" := by
  by_cases hview : anchorInView book a
  · by_cases hval : anchorValue book a ≤ p.anchorMinValueUsd.getD 0
    · rw [coreWithWindow_below book mid side a p f l hin hview hval]
      exact fun hcon => absurd (Option.some.inj hcon) (by decide)
    · rw [coreWithWindow_tp book mid side a p f l hin hview hval]
      rcases tpPhase_reason mid p with h2 | h2 <;> rw [h2]
      · exact fun hcon => Option.noConfusion hcon
      · exact fun hcon => absurd (Option.some.inj hcon) (by decide)
  · rw [coreWithWindow_removed book mid side a p f l hin (by simpa using hview)]
    exact fun hcon => absurd (Option.some.inj hcon) (by decide)

/-- C3: with the anchor-side window `[minVisible, maxVisible]` read from the
first and last parsed level, an anchor strictly outside the window closes
the position with `anchor_lost_out_of_view_against` exactly when it moved
against the position (bid anchor above `maxVisible`, ask anchor below
`minVisible`); an anchor outside on the profit side leaves the position
untouched; and an anchor exactly at `minVisible` or `maxVisible` counts as
in range, so it never triggers the out-of-view close. -/
theorem anchor_out_of_view_direction
    (rawBids rawAsks : List RawLevel) (mid : Option ℚ) (p : PositionState)
    (side : BookSide) (a : ℚ) (f l : ℚ × ℚ)
    (hside : p.anchorSide = some side) (hap : p.anchorPrice = some a)
    (hf : extractOpt (bookOf side rawBids rawAsks).head? = some f)
    (hl : extractOpt (bookOf side rawBids rawAsks).getLast? = some l) :
    (side = .bid → (visibleWindow side f l).2 < a →
        processPosition rawBids rawAsks mid p =
          { position := p, closeReason := some "anchor_lost_out_of_view_against",
            cmds := [] }) ∧
    (side = .ask → a < (visibleWindow side f l).1 →
        processPosition rawBids rawAsks mid p =
          { position := p, closeReason := some "anchor_lost_out_of_view_against",
            cmds := [] }) ∧
    (¬((visibleWindow side f l).1 ≤ a ∧ a ≤ (visibleWindow side f l).2) →
      ¬((side = .bid ∧ a > (visibleWindow side f l).2) ∨
        (side = .ask ∧ a < (visibleWindow side f l).1)) →
        processPosition rawBids rawAsks mid p =
          { position := p, closeReason := none, cmds := [] }) ∧
    ((visibleWindow side f l).1 ≤ (visibleWindow side f l).2 →
      (a = (visibleWindow side f l).1 ∨ a = (visibleWindow side f l).2) →
        (processPosition rawBids rawAsks mid p).closeReason ≠
          some "anchor_lost_out_of_view_against") := by
  have hcore : processPosition rawBids rawAsks mid p =
      coreWithWindow (bookOf side rawBids rawAsks) mid side a p f l := by
    rw [processPosition_eq_core rawBids rawAsks mid side a p hside hap]
    exact processPositionCore_eq_window rawBids rawAsks mid side a p f l hf hl
  refine ⟨?_, ?_, ?_, ?_⟩
  · intro hbid hgt
    rw [hcore]
    exact coreWithWindow_against _ _ _ _ _ _ _
      (fun hc => absurd hc.2 (not_le.mpr hgt)) (Or.inl ⟨hbid, hgt⟩)
  · intro hask hlt
    rw [hcore]
    exact coreWithWindow_against _ _ _ _ _ _ _
      (fun hc => absurd hc.1 (not_le.mpr hlt)) (Or.inr ⟨hask, hlt⟩)
  · intro hout hnadv
    rw [hcore]
    exact coreWithWindow_profit _ _ _ _ _ _ _ hout hnadv
  · intro hwin hedge
    rw [hcore]
    refine coreWithWindow_inRange_reason _ _ _ _ _ _ _ ?_
    rcases hedge with rfl | rfl
    · exact ⟨le_refl _, hwin⟩
    · exact ⟨hwin, le_refl _⟩

/-- Witness for C3: with the visible bid window `[85, 90]` below the anchor
price 95, the long position is closed with
`anchor_lost_out_of_view_against`. -/
theorem anchor_out_of_view_direction_witness :
    processPosition snapAgainst.bids snapAgainst.asks none posW =
      { position := posW, closeReason := some "anchor_lost_out_of_view_against",
        cmds := [] } :=
  (anchor_out_of_view_direction snapAgainst.bids snapAgainst.asks none posW .bid 95
    (90, 1) (85, 1) rfl rfl
    (by norm_num [snapAgainst, bookOf, extractOpt, extractPriceSize, parsePair])
    (by norm_num [snapAgainst, bookOf, extractOpt, extractPriceSize, parsePair])).1
    rfl (by norm_num [visibleWindow])

/-! ## C2 : anchor removed from the book in view -/

/-- C2: when a relevant position's anchor price lies inside the visible
window of the anchor-side book but no parseable level sits exactly at that
price, the position is closed with `anchor_removed_from_book_in_view` and
removed from the ledger.  The claim's clause that active entry-limit orders
are cancelled first holds vacuously: the module never issues any
`cancelLimitOrder` call, and no position it manages ever carries
entry-limit orders — the paper engine creates positions without them and
both `onLargeOrder` and the snapshot loop preserve that absence. -/
theorem anchor_removed_in_view_closes :
    (∀ (cfg : Config) (positions : List PositionState) (snap : OrderBookSnapshot)
        (p : PositionState) (side : BookSide) (a : ℚ) (f l : ℚ × ℚ),
        cfg.tradeEnabled = true → cfg.tradeMode ≠ .SCREEN_ONLY →
        p ∈ positions → p.coin = snap.coin →
        p.anchorSide = some side → p.anchorPrice = some a →
        extractOpt (bookOf side snap.bids snap.asks).head? = some f →
        extractOpt (bookOf side snap.bids snap.asks).getLast? = some l →
        (visibleWindow side f l).1 ≤ a → a ≤ (visibleWindow side f l).2 →
        anchorInView (bookOf side snap.bids snap.asks) a = false →
        (p, "anchor_removed_from_book_in_view") ∈
            (onOrderBookSnapshot cfg positions snap).toClose ∧
          ∀ q ∈ (onOrderBookSnapshot cfg positions snap).positions, q.id ≠ p.id) ∧
    (∀ (cfg : Config) (positions : List PositionState) (snap : OrderBookSnapshot)
        (oid : String), EngineCmd.cancel oid ∉ (onOrderBookSnapshot cfg positions snap).cmds) ∧
    (∀ (cfg : Config) (now : ℤ) (idNum : ℕ) (sig : TradeSignal) (pos : PositionState),
        paperOpenPosition cfg now idNum sig = some pos → pos.entryLimitOrders = none) ∧
    (∀ (cfg : Config) (natr : Option ℚ) (epos : Option PositionState) (st : ModuleState)
        (order : LargeOrder),
        (∀ p0 ∈ st.openPositions, p0.entryLimitOrders = none) →
        (∀ pos0, epos = some pos0 → pos0.entryLimitOrders = none) →
        ∀ q ∈ (onLargeOrder cfg natr epos st order).openPositions,
          q.entryLimitOrders = none) ∧
    (∀ (cfg : Config) (positions : List PositionState) (snap : OrderBookSnapshot),
        (∀ p0 ∈ positions, p0.entryLimitOrders = none) →
        ∀ q ∈ (onOrderBookSnapshot cfg positions snap).positions,
          q.entryLimitOrders = none) := by
  refine ⟨?_, ?_, ?_, ?_, ?_⟩
  · intro cfg positions snap p side a f l hen hmode hp hcoin hside hap hf hl hge hle hview
    have hrel : isRelevant snap.coin p = true := by
      simp [isRelevant, hcoin, hside, hap]
    have hstep : processPosition snap.bids snap.asks (midOf snap) p =
        { position := p, closeReason := some "anchor_removed_from_book_in_view",
          cmds := [] } := by
      rw [processPosition_eq_core _ _ _ _ _ _ hside hap,
        processPositionCore_eq_window _ _ _ _ _ _ f l hf hl]
      exact coreWithWindow_removed _ _ _ _ _ _ _ ⟨hge, hle⟩ hview
    have hm := snapshot_toClose_mem cfg positions snap p "anchor_removed_from_book_in_view"
      hen hmode hp hrel (by rw [hstep])
    rw [hstep] at hm
    exact ⟨hm, fun q hq => snapshot_closed_removed cfg positions snap p
      "anchor_removed_from_book_in_view" hm q hq⟩
  · intro cfg positions snap oid hc
    obtain ⟨i, szq, rq, heq⟩ := snapshot_cmds_close cfg positions snap _ hc
    exact EngineCmd.noConfusion heq
  · intro cfg now idNum sig pos h
    exact (paperOpenPosition_fields cfg now idNum sig pos h).1
  · intro cfg natr epos st order hold hepos q hq
    rcases onLargeOrder_append cfg natr epos st order with heq | ⟨pos0, pos2, heq0, heq, helo⟩
    · rw [heq] at hq
      exact hold q hq
    · rw [heq] at hq
      rcases List.mem_append.mp hq with h | h
      · exact hold q h
      · simp only [List.mem_singleton] at h
        subst h
        rw [helo]
        exact hepos pos0 heq0
  · intro cfg positions snap hall q hq
    obtain ⟨p, hp, _, _, _, _, helo⟩ := snapshot_positions_source cfg positions snap q hq
    rw [helo]
    exact hall p hp

/-- Witness for C2: in `snapRemoved` the anchor 95 is inside `[90, 100]` but
absent, so `posW` is decided for closure with
`anchor_removed_from_book_in_view`. -/
theorem anchor_removed_in_view_closes_witness :
    (posW, "anchor_removed_from_book_in_view") ∈
      (onOrderBookSnapshot cfgW [posW] snapRemoved).toClose :=
  ((anchor_removed_in_view_closes.1 cfgW [posW] snapRemoved posW .bid 95 (100, 1) (90, 1)
    rfl (by decide) (by simp) rfl rfl rfl
    (by norm_num [snapRemoved, bookOf, extractOpt, extractPriceSize, parsePair])
    (by norm_num [snapRemoved, bookOf, extractOpt, extractPriceSize, parsePair])
    (by norm_num [visibleWindow]) (by norm_num [visibleWindow])
    (by norm_num [snapRemoved, bookOf, anchorInView, extractPriceSize, parsePair])).1)

/-! ## C6 : anchor value threshold -/

/-- C6: for a relevant position whose anchor is in range and still visible,
the position is closed with `anchor_value_below_threshold` exactly when the
summed value at the anchor price is at most `anchorMinValueUsd` (closing on
equality, since the comparison is `≤`); and `onLargeOrder` sets
`anchorMinValueUsd = max(anchorInitialValueUsd * tradeAnchorMinValueFraction,
tradeAnchorMinValueUsd)` on the position it opens. -/
theorem anchor_value_threshold_close :
    (∀ (rawBids rawAsks : List RawLevel) (mid : Option ℚ) (p : PositionState)
        (side : BookSide) (a : ℚ) (f l : ℚ × ℚ),
        p.anchorSide = some side → p.anchorPrice = some a →
        extractOpt (bookOf side rawBids rawAsks).head? = some f →
        extractOpt (bookOf side rawBids rawAsks).getLast? = some l →
        (visibleWindow side f l).1 ≤ a → a ≤ (visibleWindow side f l).2 →
        anchorInView (bookOf side rawBids rawAsks) a = true →
        ((processPosition rawBids rawAsks mid p).closeReason =
            some "anchor_value_below_threshold" ↔
          anchorValue (bookOf side rawBids rawAsks) a ≤ p.anchorMinValueUsd.getD 0)) ∧
    (∀ (cfg : Config) (positions : List PositionState) (snap : OrderBookSnapshot)
        (p : PositionState) (side : BookSide) (a : ℚ) (f l : ℚ × ℚ),
        cfg.tradeEnabled = true → cfg.tradeMode ≠ .SCREEN_ONLY →
        p ∈ positions → p.coin = snap.coin →
        p.anchorSide = some side → p.anchorPrice = some a →
        extractOpt (bookOf side snap.bids snap.asks).head? = some f →
        extractOpt (bookOf side snap.bids snap.asks).getLast? = some l →
        (visibleWindow side f l).1 ≤ a → a ≤ (visibleWindow side f l).2 →
        anchorInView (bookOf side snap.bids snap.asks) a = true →
        anchorValue (bookOf side snap.bids snap.asks) a ≤ p.anchorMinValueUsd.getD 0 →
        (p, "anchor_value_below_threshold") ∈
          (onOrderBookSnapshot cfg positions snap).toClose) ∧
    (∀ (cfg : Config) (natr : Option ℚ) (st : ModuleState) (order : LargeOrder)
        (pos0 : PositionState),
        cfg.tradeEnabled = true → cfg.tradeMode ≠ .SCREEN_ONLY →
        ¬(cfg.tradeMode = .TRADE_PAPER ∧ cfg.tradeExecutionVenue ≠ .PAPER) →
        st.pendingCoins.contains order.coin.toUpper = false →
        (st.openPositions.any fun p => p.coin.toUpper = order.coin.toUpper) = false →
        canOpenPosition cfg.tradeMaxOpenPositions order.coin st.openPositions = true →
        ∃ pos2, (onLargeOrder cfg natr (some pos0) st order).openPositions =
            st.openPositions ++ [pos2] ∧
          pos2.anchorMinValueUsd = some (max (order.valueUsd * cfg.tradeAnchorMinValueFraction)
            cfg.tradeAnchorMinValueUsd) ∧
          pos2.anchorInitialValueUsd = some order.valueUsd) := by
  refine ⟨?_, ?_, ?_⟩
  · intro rawBids rawAsks mid p side a f l hside hap hf hl hge hle hview
    rw [processPosition_eq_core _ _ _ _ _ _ hside hap,
      processPositionCore_eq_window _ _ _ _ _ _ f l hf hl]
    constructor
    · intro h
      by_contra hval
      rw [coreWithWindow_tp _ _ _ _ _ _ _ ⟨hge, hle⟩ hview hval] at h
      rcases tpPhase_reason mid p with h2 | h2 <;> rw [h2] at h
      · exact Option.noConfusion h
      · exact absurd (Option.some.inj h) (by decide)
    · intro hval
      rw [coreWithWindow_below _ _ _ _ _ _ _ ⟨hge, hle⟩ hview hval]
  · intro cfg positions snap p side a f l hen hmode hp hcoin hside hap hf hl hge hle hview hval
    have hrel : isRelevant snap.coin p = true := by
      simp [isRelevant, hcoin, hside, hap]
    have hstep : processPosition snap.bids snap.asks (midOf snap) p =
        { position := p, closeReason := some "anchor_value_below_threshold", cmds := [] } := by
      rw [processPosition_eq_core _ _ _ _ _ _ hside hap,
        processPositionCore_eq_window _ _ _ _ _ _ f l hf hl]
      exact coreWithWindow_below _ _ _ _ _ _ _ ⟨hge, hle⟩ hview hval
    have hm := snapshot_toClose_mem cfg positions snap p "anchor_value_below_threshold"
      hen hmode hp hrel (by rw [hstep])
    rwa [hstep] at hm
  · intro cfg natr st order pos0 hen hmode hpv hpend hnopos hrisk
    obtain ⟨pos2, h1, h2, h3, _⟩ := onLargeOrder_guarded cfg natr st order pos0
      hen hmode hpv hpend hnopos hrisk
    exact ⟨pos2, h1, h2, h3⟩

/-- Witness for C6: in `snapBelow` the anchor at 95 keeps only 190 USD,
below `posW`'s 900,000 USD threshold, so the decision is
`anchor_value_below_threshold`. -/
theorem anchor_value_threshold_close_witness :
    (processPosition snapBelow.bids snapBelow.asks none posW).closeReason =
      some "anchor_value_below_threshold" :=
  (anchor_value_threshold_close.1 snapBelow.bids snapBelow.asks none posW .bid 95
    (100, 1) (90, 1) rfl rfl
    (by norm_num [snapBelow, bookOf, extractOpt, extractPriceSize, parsePair])
    (by norm_num [snapBelow, bookOf, extractOpt, extractPriceSize, parsePair])
    (by norm_num [visibleWindow]) (by norm_num [visibleWindow])
    (by norm_num [snapBelow, bookOf, anchorInView, extractPriceSize, parsePair])).mpr
    (by norm_num [snapBelow, bookOf, anchorValue, extractPriceSize, parsePair, posW])

/-! ## C7 : position size monotonicity and the TP ladder -/

/-- C7: a position's `sizeUsd` never grows — the snapshot loop only
subtracts hit TP targets, the ledger only shrinks positions, and
`onLargeOrder` only appends new positions; consequently
`sizeUsd ≤ initialSizeUsd` is preserved whenever it holds; and once the TP
pass drives `sizeUsd` to `≤ 0` the remainder is closed with `tp_all_hit`
(and left open with no close reason while `sizeUsd > 0`). -/
theorem position_size_monotone :
    (∀ (rawBids rawAsks : List RawLevel) (mid : Option ℚ) (p : PositionState),
        (processPosition rawBids rawAsks mid p).position.sizeUsd ≤ p.sizeUsd ∧
        (processPosition rawBids rawAsks mid p).position.initialSizeUsd = p.initialSizeUsd ∧
        (processPosition rawBids rawAsks mid p).position.id = p.id) ∧
    (∀ (v : ℚ) (rawBids rawAsks : List RawLevel) (mid : Option ℚ) (p : PositionState),
        p.initialSizeUsd = some v → p.sizeUsd ≤ v →
        (processPosition rawBids rawAsks mid p).position.sizeUsd ≤ v ∧
        (processPosition rawBids rawAsks mid p).position.initialSizeUsd = some v) ∧
    (∀ (cfg : Config) (positions : List PositionState) (snap : OrderBookSnapshot),
        ∀ q ∈ (onOrderBookSnapshot cfg positions snap).positions,
          ∃ p ∈ positions, q.id = p.id ∧ q.sizeUsd ≤ p.sizeUsd ∧
            q.initialSizeUsd = p.initialSizeUsd) ∧
    (∀ (cfg : Config) (natr : Option ℚ) (epos : Option PositionState) (st : ModuleState)
        (order : LargeOrder), ∃ tail,
        (onLargeOrder cfg natr epos st order).openPositions = st.openPositions ++ tail) ∧
    (∀ (rawBids rawAsks : List RawLevel) (m : ℚ) (p : PositionState) (side : BookSide)
        (a : ℚ) (f l : ℚ × ℚ) (ts : List TpTarget),
        p.anchorSide = some side → p.anchorPrice = some a →
        extractOpt (bookOf side rawBids rawAsks).head? = some f →
        extractOpt (bookOf side rawBids rawAsks).getLast? = some l →
        (visibleWindow side f l).1 ≤ a → a ≤ (visibleWindow side f l).2 →
        anchorInView (bookOf side rawBids rawAsks) a = true →
        ¬anchorValue (bookOf side rawBids rawAsks) a ≤ p.anchorMinValueUsd.getD 0 →
        p.tpTargets = some ts → ts.isEmpty = false →
        (((processPosition rawBids rawAsks (some m) p).position.sizeUsd ≤ 0 →
            (processPosition rawBids rawAsks (some m) p).closeReason = some "tp_all_hit") ∧
          (0 < (processPosition rawBids rawAsks (some m) p).position.sizeUsd →
            (processPosition rawBids rawAsks (some m) p).closeReason = none))) := by
  refine ⟨?_, ?_, ?_, ?_, ?_⟩
  · intro rawBids rawAsks mid p
    obtain ⟨h1, _, h3, h4, _⟩ := processPosition_preserves rawBids rawAsks mid p
    exact ⟨h3, h4, h1⟩
  · intro v rawBids rawAsks mid p hinit hle
    obtain ⟨_, _, h3, h4, _⟩ := processPosition_preserves rawBids rawAsks mid p
    exact ⟨le_trans h3 hle, hinit ▸ h4⟩
  · intro cfg positions snap q hq
    obtain ⟨p, hp, h1, _, h3, h4, _⟩ := snapshot_positions_source cfg positions snap q hq
    exact ⟨p, hp, h1, h3, h4⟩
  · intro cfg natr epos st order
    rcases onLargeOrder_append cfg natr epos st order with heq | ⟨_, pos2, _, heq, _⟩
    · exact ⟨[], by rw [heq, List.append_nil]⟩
    · exact ⟨[pos2], heq⟩
  · intro rawBids rawAsks m p side a f l ts hside hap hf hl hge hle hview hval htp hne
    have hrun := tpPhase_run m p ts htp hne
    rw [processPosition_eq_core _ _ _ _ _ _ hside hap,
      processPositionCore_eq_window _ _ _ _ _ _ f l hf hl,
      coreWithWindow_tp _ _ _ _ _ _ _ ⟨hge, hle⟩ hview hval]
    constructor
    · intro h
      rw [hrun.1] at h
      exact hrun.2.2.2.1.mpr h
    · intro h
      rw [hrun.1] at h
      exact hrun.2.2.2.2.mpr (not_le.mpr h)

/-- Witness for C7 at `posTp`: the step never grows the position beyond its
recorded initial size of 1000 USD. -/
theorem position_size_monotone_witness :
    (processPosition snapTp.bids snapTp.asks (some 104) posTp).position.sizeUsd ≤ 1000 ∧
    (processPosition snapTp.bids snapTp.asks (some 104) posTp).position.initialSizeUsd =
      some 1000 :=
  position_size_monotone.2.1 1000 snapTp.bids snapTp.asks (some 104) posTp rfl
    (by norm_num [posTp, posW])

/-! ## C9 : decided closes leave the ledger unconditionally -/

lemma snapRemoved_toClose :
    (posW, "anchor_removed_from_book_in_view") ∈
      (onOrderBookSnapshot cfgW [posW] snapRemoved).toClose := by
  have hstep : processPosition snapRemoved.bids snapRemoved.asks (midOf snapRemoved) posW =
      { position := posW, closeReason := some "anchor_removed_from_book_in_view",
        cmds := [] } := by
    rw [processPosition_eq_core _ _ _ .bid 95 posW rfl rfl,
      processPositionCore_eq_window _ _ _ _ _ _ (100, 1) (90, 1)
        (by norm_num [snapRemoved, bookOf, extractOpt, extractPriceSize, parsePair])
        (by norm_num [snapRemoved, bookOf, extractOpt, extractPriceSize, parsePair])]
    exact coreWithWindow_removed _ _ _ _ _ _ _
      ⟨by norm_num [visibleWindow], by norm_num [visibleWindow]⟩
      (by norm_num [snapRemoved, bookOf, anchorInView, extractPriceSize, parsePair])
  have hm := snapshot_toClose_mem cfgW [posW] snapRemoved posW
    "anchor_removed_from_book_in_view" rfl (by decide) (by simp)
    (by simp [isRelevant, posW, snapRemoved]) (by rw [hstep])
  rwa [hstep] at hm

/-- C9: a position decided for closure during a snapshot is removed from the
ledger in the same call, its `closePosition` call is issued fire-and-forget
(the ledger update is a pure function of the inputs, so an engine rejection
cannot keep or restore the position), and no call ever adds a position to
the ledger. -/
theorem decided_close_removes_from_ledger :
    (∀ (cfg : Config) (positions : List PositionState) (snap : OrderBookSnapshot)
        (q : PositionState) (r : String),
        (q, r) ∈ (onOrderBookSnapshot cfg positions snap).toClose →
        (∀ q2 ∈ (onOrderBookSnapshot cfg positions snap).positions, q2.id ≠ q.id) ∧
        EngineCmd.close q.id q.sizeUsd r ∈ (onOrderBookSnapshot cfg positions snap).cmds) ∧
    (∀ (cfg : Config) (positions : List PositionState) (snap : OrderBookSnapshot),
        ∀ q ∈ (onOrderBookSnapshot cfg positions snap).positions,
          ∃ p ∈ positions, q.id = p.id) := by
  constructor
  · intro cfg positions snap q r h
    exact ⟨snapshot_closed_removed cfg positions snap q r h,
      snapshot_close_cmd cfg positions snap q r h⟩
  · intro cfg positions snap q hq
    obtain ⟨p, hp, h1, _⟩ := snapshot_positions_source cfg positions snap q hq
    exact ⟨p, hp, h1⟩

/-- Witness for C9: the decided close of `posW` in `snapRemoved` is issued
to the engine within the same call. -/
theorem decided_close_removes_from_ledger_witness :
    EngineCmd.close posW.id posW.sizeUsd "anchor_removed_from_book_in_view" ∈
      (onOrderBookSnapshot cfgW [posW] snapRemoved).cmds :=
  (decided_close_removes_from_ledger.1 cfgW [posW] snapRemoved posW
    "anchor_removed_from_book_in_view" snapRemoved_toClose).2

/-! ## C1 : policy evaluation -/

lemma applyActions_spec (d : PolicyDecision) (r : PolicyRule) :
    (applyActions d r).allowTrade = r.thenAct.allowTrade.getD d.allowTrade ∧
    (applyActions d r).sizeMultiplier = d.sizeMultiplier * (r.thenAct.sizeMultiplier).getD 1 ∧
    (applyActions d r).tpNatrMultiplier =
      d.tpNatrMultiplier * (r.thenAct.tpNatrMultiplier).getD 1 ∧
    (applyActions d r).slNatrMultiplier =
      d.slNatrMultiplier * (r.thenAct.slNatrMultiplier).getD 1 ∧
    (applyActions d r).reason = d.reason := by
  rcases hA : r.thenAct.allowTrade with _ | b <;>
  rcases hS : r.thenAct.sizeMultiplier with _ | ms <;>
  rcases hT : r.thenAct.tpNatrMultiplier with _ | mt <;>
  rcases hL : r.thenAct.slNatrMultiplier with _ | ml <;>
    simp [applyActions, hA, hS, hT, hL]

lemma evalLoop_spec (f : ContextFeatures) :
    ∀ (rules : List PolicyRule) (d : PolicyDecision) (applied : List String),
      d.allowTrade = true →
      (evalLoop f rules d applied).2 =
        applied ++ (matchedRules f rules).map PolicyRule.name ∧
      (evalLoop f rules d applied).1.sizeMultiplier = d.sizeMultiplier *
        ((matchedRules f rules).map fun r => (r.thenAct.sizeMultiplier).getD 1).prod ∧
      (evalLoop f rules d applied).1.tpNatrMultiplier = d.tpNatrMultiplier *
        ((matchedRules f rules).map fun r => (r.thenAct.tpNatrMultiplier).getD 1).prod ∧
      (evalLoop f rules d applied).1.slNatrMultiplier = d.slNatrMultiplier *
        ((matchedRules f rules).map fun r => (r.thenAct.slNatrMultiplier).getD 1).prod ∧
      ((evalLoop f rules d applied).1.allowTrade = false ↔
        ∃ r ∈ matchedRules f rules, r.thenAct.allowTrade = some false) ∧
      (matchedRules f rules = [] → (evalLoop f rules d applied).1 = d) := by
  intro rules
  induction rules with
  | nil =>
    intro d applied hd
    refine ⟨by simp [evalLoop, matchedRules], ?_, ?_, ?_, ?_, fun _ => rfl⟩ <;>
      simp [evalLoop, matchedRules, hd]
  | cons r rest ih =>
    intro d applied hd
    by_cases hc : checkConditions r f
    · obtain ⟨hA, hS, hT, hL, hR⟩ := applyActions_spec d r
      by_cases hv : r.thenAct.allowTrade = some false
      · have hfalse : (applyActions d r).allowTrade = false := by rw [hA, hv]; rfl
        have hloop : evalLoop f (r :: rest) d applied =
            ({ applyActions d r with reason := r.name }, applied ++ [r.name]) := by
          simp only [evalLoop, hc, if_true, hfalse]
        have hm : matchedRules f (r :: rest) = [r] := by
          simp [matchedRules, hc, hv]
        rw [hloop, hm]
        refine ⟨rfl, ?_, ?_, ?_, ?_, by simp⟩
        · simpa using hS
        · simpa using hT
        · simpa using hL
        · simp [hfalse, hv]
      · have htrue : (applyActions d r).allowTrade = true := by
          rw [hA]
          rcases hAt : r.thenAct.allowTrade with _ | b
          · exact hd
          · cases b
            · exact absurd hAt hv
            · rfl
        have hloop : evalLoop f (r :: rest) d applied =
            evalLoop f rest (applyActions d r) (applied ++ [r.name]) := by
          simp only [evalLoop, hc, if_true, htrue]
          rw [if_neg (by simp)]
        have hm : matchedRules f (r :: rest) = r :: matchedRules f rest := by
          simp [matchedRules, hc, hv]
        obtain ⟨ih1, ih2, ih3, ih4, ih5, ih6⟩ := ih (applyActions d r) (applied ++ [r.name]) htrue
        rw [hloop, hm]
        refine ⟨?_, ?_, ?_, ?_, ?_, ?_⟩
        · rw [ih1]
          simp
        · rw [ih2, hS]
          simp [mul_assoc]
        · rw [ih3, hT]
          simp [mul_assoc]
        · rw [ih4, hL]
          simp [mul_assoc]
        · rw [ih5]
          constructor
          · intro hex
            obtain ⟨x, hx, hxv⟩ := hex
            exact ⟨x, List.mem_cons_of_mem r hx, hxv⟩
          · rintro ⟨x, hx, hxv⟩
            rcases List.mem_cons.mp hx with rfl | hx
            · exact absurd hxv hv
            · exact ⟨x, hx, hxv⟩
        · intro hnil
          cases hnil
    · have hloop : evalLoop f (r :: rest) d applied = evalLoop f rest d applied := by
        simp only [evalLoop, hc]
        rw [if_neg (by simp)]
      have hm : matchedRules f (r :: rest) = matchedRules f rest := by
        simp [matchedRules, hc]
      rw [hloop, hm]
      exact ih d applied hd

/-- C1 (amended): with the rule list held in ascending priority order,
`evaluatePolicy` composes matched rules — each multiplier is the product of
the corresponding multipliers of the matched rules (1 if none matched),
evaluation stops at the first matching rule that sets `allowTrade: false`
(later rules contribute nothing) and only such a rule makes the decision
vetoing; `reason` is `"default"` when no rule matched and otherwise the
comma-joined names of all matched rules — including, after a veto, the
earlier matched names with the vetoing rule's name last, because the
post-loop join overwrites the rule name stored at the `break`. -/
theorem evaluatePolicy_composition (rules : List PolicyRule) (f : ContextFeatures)
    (hsort : rules.Sorted fun a b => a.priority ≤ b.priority) :
    (evaluatePolicy rules f).sizeMultiplier =
      ((matchedRules f rules).map fun r => (r.thenAct.sizeMultiplier).getD 1).prod ∧
    (evaluatePolicy rules f).tpNatrMultiplier =
      ((matchedRules f rules).map fun r => (r.thenAct.tpNatrMultiplier).getD 1).prod ∧
    (evaluatePolicy rules f).slNatrMultiplier =
      ((matchedRules f rules).map fun r => (r.thenAct.slNatrMultiplier).getD 1).prod ∧
    ((evaluatePolicy rules f).allowTrade = false ↔
      ∃ r ∈ matchedRules f rules, r.thenAct.allowTrade = some false) ∧
    (evaluatePolicy rules f).reason =
      (if matchedRules f rules = [] then "default"
       else String.intercalate ", " ((matchedRules f rules).map PolicyRule.name)) := by
  obtain ⟨h2, hsz, htp, hsl, hat, hempty⟩ :=
    evalLoop_spec f rules
      { allowTrade := true, sizeMultiplier := 1, tpNatrMultiplier := 1,
        slNatrMultiplier := 1, reason := "default" } [] rfl
  by_cases hm : matchedRules f rules = []
  · have hlen : (evalLoop f rules
        { allowTrade := true, sizeMultiplier := 1, tpNatrMultiplier := 1,
          slNatrMultiplier := 1, reason := "default" } []).2.length = 0 := by
      rw [h2, hm]
      rfl
    have hE : evaluatePolicy rules f = (evalLoop f rules
        { allowTrade := true, sizeMultiplier := 1, tpNatrMultiplier := 1,
          slNatrMultiplier := 1, reason := "default" } []).1 := by
      simp only [evaluatePolicy]
      rw [if_neg (by rw [hlen]; exact lt_irrefl 0)]
    rw [hE, hempty hm, hm]
    refine ⟨by simp, by simp, by simp, by simp, by simp⟩
  · have hlen : 0 < (evalLoop f rules
        { allowTrade := true, sizeMultiplier := 1, tpNatrMultiplier := 1,
          slNatrMultiplier := 1, reason := "default" } []).2.length := by
      rw [h2]
      simp only [List.nil_append, List.length_map]
      exact List.length_pos.mpr hm
    have hE : evaluatePolicy rules f =
        { (evalLoop f rules
            { allowTrade := true, sizeMultiplier := 1, tpNatrMultiplier := 1,
              slNatrMultiplier := 1, reason := "default" } []).1 with
          reason := String.intercalate ", " (evalLoop f rules
            { allowTrade := true, sizeMultiplier := 1, tpNatrMultiplier := 1,
              slNatrMultiplier := 1, reason := "default" } []).2 } := by
      simp only [evaluatePolicy]
      rw [if_pos hlen]
    rw [hE]
    refine ⟨?_, ?_, ?_, ?_, ?_⟩
    · rw [show ({ (evalLoop f rules _ []).1 with reason := _ } : PolicyDecision).sizeMultiplier =
        (evalLoop f rules _ []).1.sizeMultiplier from rfl, hsz]
      exact one_mul _
    · rw [show ({ (evalLoop f rules _ []).1 with reason := _ } : PolicyDecision).tpNatrMultiplier =
        (evalLoop f rules _ []).1.tpNatrMultiplier from rfl, htp]
      exact one_mul _
    · rw [show ({ (evalLoop f rules _ []).1 with reason := _ } : PolicyDecision).slNatrMultiplier =
        (evalLoop f rules _ []).1.slNatrMultiplier from rfl, hsl]
      exact one_mul _
    · exact hat
    · rw [if_neg hm]
      show String.intercalate ", " (evalLoop f rules _ []).2 = _
      rw [h2]
      simp

/-- Witness for the amended C1 at the two concrete rules `ruleBoost` and
`ruleVeto` (priorities 1 and 2). -/
theorem evaluatePolicy_composition_witness :
    (evaluatePolicy [ruleBoost, ruleVeto] feats0).reason =
      (if matchedRules feats0 [ruleBoost, ruleVeto] = [] then "default"
       else String.intercalate ", "
         ((matchedRules feats0 [ruleBoost, ruleVeto]).map PolicyRule.name)) :=
  (evaluatePolicy_composition [ruleBoost, ruleVeto] feats0
    (by norm_num [List.sorted_cons, ruleBoost, ruleVeto])).2.2.2.2

/-- Counterexample to C1 as stated: both rules match `feats0`; `ruleVeto`
sets `allowTrade: false`, so evaluation stops there — but the returned
`reason` is the comma-joined list `"boost, veto"`, not the vetoing rule's
name `"veto"`, because the post-loop `appliedRules.join(', ')` overwrites
the `reason` the loop set before `break`. -/
theorem evaluatePolicy_veto_reason_counterexample :
    checkConditions ruleBoost feats0 = true ∧
    checkConditions ruleVeto feats0 = true ∧
    ruleVeto.thenAct.allowTrade = some false ∧
    (evaluatePolicy [ruleBoost, ruleVeto] feats0).allowTrade = false ∧
    (evaluatePolicy [ruleBoost, ruleVeto] feats0).reason = "boost, veto" ∧
    (evaluatePolicy [ruleBoost, ruleVeto] feats0).reason ≠ ruleVeto.name :=
  ⟨by decide, by decide, rfl, by decide, by decide, by decide⟩

end HS
